import Mathlib

/-!
Shallow embedding of `nix-channels.py`, a mirror-synchronization script for
Nix channels.  Pure string manipulation, the download retry loop, the
per-channel cloning logic, the batched closure expansion, the orchestration
of the whole run, and the garbage collector are translated into executable
Lean definitions; network and filesystem effects are supplied as explicit
input oracles (functions from names to observed outcomes), and the
definitions record the externally visible actions (downloads, file writes,
symlink updates, deletions) as explicit event lists.

Machine conventions:
  * Python `str` is modelled by `String`, character-level algorithms by
    functions on `List Char` applied to `String.data`.
  * Python exceptions are modelled by `Except`; a raised exception that a
    function does not catch is an `Except.error` result.
  * The urllib3 `Retry` object used by `download` is modelled faithfully:
    `Retry.increment` decrements the remaining total and *raises*
    `MaxRetryError` once the budget is exhausted — it never returns `None`.
-/

set_option linter.unusedVariables false

namespace NixChannels

/-! ### Python string primitives -/

/-- Does `pat` occur at the start of `s`?  (List-level `startswith`.) -/
def startsWithL : List Char → List Char → Bool
  | [], _ => true
  | _ :: _, [] => false
  | a :: as, b :: bs => a = b && startsWithL as bs

/-- Python `pat in s`: does `pat` occur as a contiguous substring of `s`? -/
def hasSubstr (pat : List Char) : List Char → Bool
  | [] => startsWithL pat []
  | c :: rest => startsWithL pat (c :: rest) || hasSubstr pat rest

/-- Python `s.replace(pat, repl)` for a non-empty `pat`, with explicit
fuel (`fuel ≥ s.length` makes the fuel irrelevant): replace the leftmost
occurrence, continue scanning after the replacement (non-overlapping,
left to right). -/
def replaceGo (pat repl : List Char) : Nat → List Char → List Char
  | _, [] => []
  | 0, s => s
  | fuel + 1, c :: rest =>
    if pat ≠ [] ∧ startsWithL pat (c :: rest) then
      repl ++ replaceGo pat repl fuel (List.drop (pat.length - 1) rest)
    else
      c :: replaceGo pat repl fuel rest

/-- Python `s.replace(pat, repl)` for a non-empty `pat`. -/
def replaceSub (pat repl s : List Char) : List Char :=
  replaceGo pat repl s.length s

/-- Python `s.split(sep, 1)` for the two-character separator `": "`:
returns the parts before and after the first occurrence, or `none` when
the separator does not occur (in the source this is the case where
tuple-unpacking of `line.split(': ', 1)` raises `ValueError`). -/
def splitOnceCS : List Char → Option (List Char × List Char)
  | ':' :: ' ' :: rest => some ([], rest)
  | c :: rest => (splitOnceCS rest).map (fun p => (c :: p.1, p.2))
  | [] => none

/-- Python `s.split(pat, 1)[0]` for a non-empty `pat`: the part before the
first occurrence of `pat`, or all of `s` when `pat` does not occur. -/
def beforeFirst (pat : List Char) : List Char → List Char
  | [] => []
  | c :: rest =>
    if startsWithL pat (c :: rest) then []
    else c :: beforeFirst pat rest

/-- Python `path.split('/')[-1]`: the final path component. -/
def lastComponent (s : List Char) : List Char :=
  (s.reverse.takeWhile (fun c => c ≠ '/')).reverse

/-- `hash_part` from the source: `path.split('/')[-1].split('-', 1)[0]`,
the store hash of a store path. -/
def hash_part (s : String) : String :=
  ⟨(lastComponent s.data).takeWhile (fun c => c ≠ '-')⟩

/-- String-level wrapper for `hasSubstr`. -/
def strHasSub (pat s : String) : Bool := hasSubstr pat.data s.data

/-- String-level wrapper for `replaceSub` (Python `str.replace`). -/
def pyReplace (s pat repl : String) : String := ⟨replaceSub pat.data repl.data s.data⟩

/-! ### Configuration constants (defaults from the source's env handling) -/

/-- `PATH_BATCH = int(os.getenv('NIX_MIRROR_PATH_BATCH', 8192))`. -/
def PATH_BATCH : Nat := 8192

/-! ### Cache-priority rewrite (`update_channels`, nix-cache-info handling)

If `SET_CACHE_PRIORITY`, the source reads the downloaded `nix-cache-info`
file and writes back
`cache_info_data.replace('Priority: 40', 'Priority: ' + str(CACHE_PRIORITY))`.
-/

/-- The rewrite applied to the `nix-cache-info` contents when
`SET_CACHE_PRIORITY` is enabled.  `priorityStr` is `str(CACHE_PRIORITY)`. -/
def rewriteCacheInfo (priorityStr : String) (cacheInfoData : String) : String :=
  pyReplace cacheInfoData "Priority: 40" ("Priority: " ++ priorityStr)

/-! ### Lemmas about the string primitives -/

theorem hasSubstr_cons (pat : List Char) (c : Char) (rest : List Char) :
    hasSubstr pat (c :: rest) = (startsWithL pat (c :: rest) || hasSubstr pat rest) := by
  simp [hasSubstr]

theorem replaceGo_of_not_hasSubstr (pat repl : List Char) :
    ∀ (fuel : Nat) (s : List Char), hasSubstr pat s = false →
      replaceGo pat repl fuel s = s := by
  intro fuel
  induction fuel with
  | zero => intro s _; cases s <;> rfl
  | succ fuel ih =>
    intro s h
    cases s with
    | nil => rfl
    | cons c rest =>
      rw [hasSubstr_cons] at h
      simp only [Bool.or_eq_false_iff] at h
      rw [replaceGo]
      rw [if_neg]
      · rw [ih rest h.2]
      · intro hcon
        rw [hcon.2] at h
        simp at h

theorem replaceSub_of_not_hasSubstr (pat repl : List Char)
    (s : List Char) (h : hasSubstr pat s = false) : replaceSub pat repl s = s :=
  replaceGo_of_not_hasSubstr pat repl s.length s h

/-! ### Resumable fetcher (`download`)

`download(url, dest)` creates the parent directory, streams the response
body in 1 MiB chunks into the hidden sibling `.{dest.name}.tmp`, checks the
byte count against a declared `Content-Length`, retries connection errors
and size mismatches through a urllib3 `Retry` object, and finally renames
the temp file onto `dest`.

The network is an oracle `resp : Nat → HttpResponse` giving the outcome of
the `i`-th GET attempt.  Filesystem effects are recorded as events.
-/

/-- The urllib3 `Retry` state; only the `total` budget matters to the
source (`Retry(total=5, backoff_factor=1, status_forcelist=[502,503,504])`;
the status-forcelist retries happen inside the HTTP adapter, below the
level modelled here). -/
structure Retry where
  total : Int
deriving DecidableEq

/-- Exceptions that can escape `download`. -/
inductive DlErr where
  /-- `requests.exceptions.ConnectionError` raised by `http_get` itself
  (before the `try` block, hence never retried by the fetcher loop). -/
  | connectionError
  /-- `requests.exceptions.HTTPError` from `res.raise_for_status()`. -/
  | httpError
  /-- `WrongSize`.  Inside `download` it is always caught by the retry
  loop, so it can never escape; the constructor exists because the
  caller `try_mirror` still lists it in its `except` clause. -/
  | wrongSize
  /-- `urllib3.exceptions.MaxRetryError`, raised by `Retry.increment`
  when the budget is exhausted. -/
  | maxRetryError
deriving DecidableEq

/-- urllib3 `Retry.increment`: returns a copy with the budget decremented,
or raises `MaxRetryError` when the decremented budget is exhausted
(`total < 0`).  It never returns `None` — the source's
`if next_retry is None` branch therefore has no counterpart here. -/
def Retry.increment (r : Retry) : Except DlErr Retry :=
  if r.total - 1 < 0 then .error .maxRetryError else .ok ⟨r.total - 1⟩

/-- The module-level `retries = Retry(total=5, ...)` object. -/
def retries : Retry := { total := 5 }

/-- A file path as seen by `download`: the hidden temp sibling
`.{name}.tmp` of a destination, or the destination itself. -/
inductive FPath where
  | tmpOf (dest : String)
  | finalOf (dest : String)
deriving DecidableEq

/-- Observable filesystem events of one `download` call. -/
inductive FsEvent where
  /-- `dest.parent.mkdir(parents=True, exist_ok=True)`. -/
  | mkdirParents
  /-- `download_dest.open('wb')` — truncating open for writing. -/
  | openW (p : FPath)
  /-- one `f.write(chunk)` of `n` bytes. -/
  | writeChunk (p : FPath) (n : Nat)
  /-- `download_dest.rename(dest)`. -/
  | rename (src dst : FPath)
deriving DecidableEq

/-- Outcome of the `i`-th GET attempt, as observed by `download`. -/
inductive HttpResponse where
  /-- the connection itself fails: `http_get` raises
  `requests.exceptions.ConnectionError`. -/
  | reqError
  /-- `res.raise_for_status()` raises `requests.exceptions.HTTPError`. -/
  | reqHttpError
  /-- a response body: the chunk sizes yielded by `iter_content`, the
  declared `Content-Length` (if any), and — when `connErrorAfter = some k`
  — a `ConnectionError` raised after `k` chunks were consumed. -/
  | body (chunks : List Nat) (contentLength : Option Nat) (connErrorAfter : Option Nat)

/-- What one iteration of the `while True` loop does with a response. -/
inductive AttemptStep where
  /-- an exception not caught by the loop propagates out of `download`. -/
  | raiseNow (e : DlErr) (events : List FsEvent)
  /-- `requests.exceptions.ConnectionError` or `WrongSize` inside the
  `try` block: caught, `retry.increment` is consulted. -/
  | retriableFail (events : List FsEvent)
  /-- the body completed and any declared content length matched:
  `break` out of the loop. -/
  | success (events : List FsEvent) (actualSize : Nat) (contentLength : Option Nat)

/-- The chunks actually written: `if chunk: f.write(chunk)` skips empty
chunks. -/
def writtenChunks (chunks : List Nat) : List Nat := chunks.filter (fun n => 0 < n)

/-- One iteration of the download loop on response `r`.  The temp file is
opened with `'wb'` (truncation), so `actual_size` — `download_dest.stat().st_size`
after the loop — is the sum of this attempt's written chunks. -/
def attemptStep (dest : String) (r : HttpResponse) : AttemptStep :=
  match r with
  | .reqError => .raiseNow .connectionError []
  | .reqHttpError => .raiseNow .httpError []
  | .body chunks cl connErrorAfter =>
    match connErrorAfter with
    | some k =>
      .retriableFail
        (FsEvent.openW (FPath.tmpOf dest) ::
          (writtenChunks (chunks.take k)).map (FsEvent.writeChunk (FPath.tmpOf dest)))
    | none =>
      let evs := FsEvent.openW (FPath.tmpOf dest) ::
        (writtenChunks chunks).map (FsEvent.writeChunk (FPath.tmpOf dest))
      let actual := (writtenChunks chunks).sum
      match cl with
      | some n => if actual ≠ n then .retriableFail evs else .success evs actual cl
      | none => .success evs actual none

deriving instance DecidableEq for Except

/-- Result of a `download` call: how many GET attempts were made, the
filesystem events in order, and the Python-level outcome. -/
structure DlResult where
  attempts : Nat
  events : List FsEvent
  result : Except DlErr Unit
deriving DecidableEq

/-- The `while True` loop of `download`, starting at attempt index `i`
with retry state `retry` and already-recorded events `acc`. -/
def dlLoop (dest : String) (resp : Nat → HttpResponse) (retry : Retry) (i : Nat)
    (acc : List FsEvent) : DlResult :=
  match attemptStep dest (resp i) with
  | .raiseNow e evs => ⟨i + 1, acc ++ evs, .error e⟩
  | .success evs _ _ =>
    ⟨i + 1, acc ++ evs ++ [FsEvent.rename (FPath.tmpOf dest) (FPath.finalOf dest)], .ok ()⟩
  | .retriableFail evs =>
    match h : retry.increment with
    | .error e => ⟨i + 1, acc ++ evs, .error e⟩
    | .ok r' => dlLoop dest resp r' (i + 1) (acc ++ evs)
termination_by (retry.total + 1).toNat
decreasing_by
  simp only [Retry.increment] at h
  split at h
  · exact absurd h (by simp)
  · rename_i hc
    injection h with h'
    subst h'
    simp only
    omega

/-- `download(url, dest)`: mkdir the parent, then run the retry loop with
the module-level `retries` budget.  The URL only selects the response
oracle, which is already `resp`. -/
def download (dest : String) (resp : Nat → HttpResponse) : DlResult :=
  dlLoop dest resp retries 0 [FsEvent.mkdirParents]

/-! ### Unfolding lemmas for the download loop -/

theorem dlLoop_raise (dest : String) (resp : Nat → HttpResponse) (retry : Retry) (i : Nat)
    (acc : List FsEvent) (e : DlErr) (evs : List FsEvent)
    (h : attemptStep dest (resp i) = AttemptStep.raiseNow e evs) :
    dlLoop dest resp retry i acc = ⟨i + 1, acc ++ evs, .error e⟩ := by
  rw [dlLoop, h]

theorem dlLoop_success (dest : String) (resp : Nat → HttpResponse) (retry : Retry) (i : Nat)
    (acc : List FsEvent) (evs : List FsEvent) (sz : Nat) (cl : Option Nat)
    (h : attemptStep dest (resp i) = AttemptStep.success evs sz cl) :
    dlLoop dest resp retry i acc =
      ⟨i + 1, acc ++ evs ++ [FsEvent.rename (FPath.tmpOf dest) (FPath.finalOf dest)], .ok ()⟩ := by
  rw [dlLoop, h]

theorem dlLoop_exhaust (dest : String) (resp : Nat → HttpResponse) (retry : Retry) (i : Nat)
    (acc : List FsEvent) (evs : List FsEvent) (e : DlErr)
    (h : attemptStep dest (resp i) = AttemptStep.retriableFail evs)
    (h2 : retry.increment = Except.error e) :
    dlLoop dest resp retry i acc = ⟨i + 1, acc ++ evs, .error e⟩ := by
  rw [dlLoop, h]
  split
  · rename_i heq; simp at heq
  · rename_i heq; simp at heq
  · rename_i heq
    simp only [AttemptStep.retriableFail.injEq] at heq
    subst heq
    split
    · rename_i heq2
      rw [h2] at heq2
      injection heq2 with he
      rw [he]
    · rename_i heq2
      rw [h2] at heq2
      cases heq2

theorem dlLoop_retry (dest : String) (resp : Nat → HttpResponse) (retry : Retry) (i : Nat)
    (acc : List FsEvent) (evs : List FsEvent) (r' : Retry)
    (h : attemptStep dest (resp i) = AttemptStep.retriableFail evs)
    (h2 : retry.increment = Except.ok r') :
    dlLoop dest resp retry i acc = dlLoop dest resp r' (i + 1) (acc ++ evs) := by
  rw [dlLoop, h]
  split
  · rename_i heq; simp at heq
  · rename_i heq; simp at heq
  · rename_i heq
    simp only [AttemptStep.retriableFail.injEq] at heq
    subst heq
    split
    · rename_i heq2
      rw [h2] at heq2
      cases heq2
    · rename_i heq2
      rw [h2] at heq2
      injection heq2 with he
      rw [he]

/-! ### Helpers for reasoning about attempts and events -/

/-- The events an attempt produced, regardless of its outcome. -/
def AttemptStep.events : AttemptStep → List FsEvent
  | .raiseNow _ evs => evs
  | .retriableFail evs => evs
  | .success evs _ _ => evs

/-- Is the attempt a failure the retry loop catches (connection error
mid-body or size mismatch)? -/
def AttemptStep.isRetriable : AttemptStep → Bool
  | .retriableFail _ => true
  | _ => false

/-- Every event of `download` either does not name a path at all, writes
only to the hidden temp sibling of `dest`, or is the final
temp-to-destination rename. -/
def FsEvent.eventOk (dest : String) : FsEvent → Bool
  | .mkdirParents => true
  | .openW p => decide (p = FPath.tmpOf dest)
  | .writeChunk p _ => decide (p = FPath.tmpOf dest)
  | .rename a b => decide (a = FPath.tmpOf dest) && decide (b = FPath.finalOf dest)

/-- Is the event a rename? -/
def FsEvent.isRename : FsEvent → Bool
  | .rename _ _ => true
  | _ => false

theorem attemptStep_events_ok (dest : String) (r : HttpResponse) :
    ∀ ev ∈ (attemptStep dest r).events, ev.eventOk dest = true ∧ ev.isRename = false := by
  cases r with
  | reqError => simp [attemptStep, AttemptStep.events]
  | reqHttpError => simp [attemptStep, AttemptStep.events]
  | body chunks cl connErrorAfter =>
    cases connErrorAfter with
    | some k =>
      intro ev hev
      simp only [attemptStep, AttemptStep.events, List.mem_cons, List.mem_map] at hev
      rcases hev with h | ⟨n, _, h⟩ <;>
        · subst h; simp [FsEvent.eventOk, FsEvent.isRename]
    | none =>
      cases cl with
      | some n =>
        intro ev hev
        simp only [attemptStep] at hev
        split at hev <;>
          · simp only [AttemptStep.events, List.mem_cons, List.mem_map] at hev
            rcases hev with h | ⟨m, _, h⟩ <;>
              · subst h; simp [FsEvent.eventOk, FsEvent.isRename]
      | none =>
        intro ev hev
        simp only [attemptStep, AttemptStep.events, List.mem_cons, List.mem_map] at hev
        rcases hev with h | ⟨m, _, h⟩ <;>
          · subst h; simp [FsEvent.eventOk, FsEvent.isRename]

/-- A successful attempt really did verify the declared content length:
the `success` constructor is only built when the size check passed. -/
theorem attemptStep_success_cl (dest : String) (r : HttpResponse) (evs : List FsEvent)
    (sz : Nat) (cl : Option Nat) (h : attemptStep dest r = AttemptStep.success evs sz cl) :
    cl = none ∨ cl = some sz := by
  cases r with
  | reqError => simp [attemptStep] at h
  | reqHttpError => simp [attemptStep] at h
  | body chunks cl0 connErrorAfter =>
    cases connErrorAfter with
    | some k => simp [attemptStep] at h
    | none =>
      cases cl0 with
      | some n =>
        simp only [attemptStep] at h
        split at h
        · cases h
        · rename_i hsz
          injection h with h1 h2 h3
          right
          rw [← h3, ← h2]
          simp at hsz
          rw [hsz]
      | none =>
        simp only [attemptStep] at h
        injection h with h1 h2 h3
        left
        rw [← h3]

theorem isRetriable_exists (s : AttemptStep) (h : s.isRetriable = true) :
    ∃ evs, s = AttemptStep.retriableFail evs := by
  cases s <;> simp [AttemptStep.isRetriable] at h ⊢

/-- If every attempt fails retriably, the loop started with budget `t`
makes `t + 1` further attempts and then raises `MaxRetryError` out of
`Retry.increment`. -/
theorem dlLoop_all_retriable (dest : String) (resp : Nat → HttpResponse)
    (hall : ∀ j, (attemptStep dest (resp j)).isRetriable = true) :
    ∀ (t : Nat) (retry : Retry) (i : Nat) (acc : List FsEvent), retry.total = (t : Int) →
      (dlLoop dest resp retry i acc).attempts = i + t + 1 ∧
      (dlLoop dest resp retry i acc).result = Except.error DlErr.maxRetryError := by
  intro t
  induction t with
  | zero =>
    intro retry i acc ht
    obtain ⟨evs, hevs⟩ := isRetriable_exists _ (hall i)
    have hinc : retry.increment = Except.error DlErr.maxRetryError := by
      simp only [Retry.increment, ht]
      decide
    rw [dlLoop_exhaust dest resp retry i acc evs _ hevs hinc]
    exact ⟨rfl, rfl⟩
  | succ t ih =>
    intro retry i acc ht
    obtain ⟨evs, hevs⟩ := isRetriable_exists _ (hall i)
    have harith : ((t + 1 : Nat) : Int) - 1 = (t : Int) := by push_cast; omega
    have hinc : retry.increment = Except.ok ⟨(t : Int)⟩ := by
      simp only [Retry.increment, ht, harith]
      rw [if_neg (by omega)]
    rw [dlLoop_retry dest resp retry i acc evs _ hevs hinc]
    obtain ⟨ha, hr⟩ := ih ⟨(t : Int)⟩ (i + 1) (acc ++ evs) rfl
    refine ⟨?_, hr⟩
    rw [ha]
    omega

/-- Structural properties of the whole download loop: every event writes
only to the temp path, a rename appears exactly as the final event of a
successful call, and a successful call's last attempt completed its body
with any declared content length matching. -/
theorem dlLoop_events_spec (dest : String) (resp : Nat → HttpResponse) :
    ∀ (retry : Retry) (i : Nat) (acc : List FsEvent),
      (∀ ev ∈ acc, ev.eventOk dest = true ∧ ev.isRename = false) →
      (∀ ev ∈ (dlLoop dest resp retry i acc).events, ev.eventOk dest = true) ∧
      ((dlLoop dest resp retry i acc).result = .ok () →
        (∃ init, (dlLoop dest resp retry i acc).events =
            init ++ [FsEvent.rename (FPath.tmpOf dest) (FPath.finalOf dest)] ∧
          ∀ ev ∈ init, ev.isRename = false) ∧
        ∃ evs sz cl, attemptStep dest (resp ((dlLoop dest resp retry i acc).attempts - 1)) =
            AttemptStep.success evs sz cl ∧ (cl = none ∨ cl = some sz)) ∧
      (∀ e, (dlLoop dest resp retry i acc).result = .error e →
        ∀ ev ∈ (dlLoop dest resp retry i acc).events, ev.isRename = false) := by
  intro retry i acc
  induction retry, i, acc using dlLoop.induct dest resp with
  | case1 retry i acc e evs h =>
    intro hacc
    have hstep := attemptStep_events_ok dest (resp i)
    rw [h] at hstep
    simp only [AttemptStep.events] at hstep
    rw [dlLoop_raise dest resp retry i acc e evs h]
    refine ⟨?_, ?_, ?_⟩
    · intro ev hev
      simp only [List.mem_append] at hev
      rcases hev with hev | hev
      · exact (hacc ev hev).1
      · exact (hstep ev hev).1
    · intro hok
      exact absurd hok (by simp)
    · intro e' he' ev hev
      simp only [List.mem_append] at hev
      rcases hev with hev | hev
      · exact (hacc ev hev).2
      · exact (hstep ev hev).2
  | case2 retry i acc evs sz cl h =>
    intro hacc
    have hstep := attemptStep_events_ok dest (resp i)
    rw [h] at hstep
    simp only [AttemptStep.events] at hstep
    rw [dlLoop_success dest resp retry i acc evs sz cl h]
    refine ⟨?_, ?_, ?_⟩
    · intro ev hev
      simp only [List.mem_append, List.mem_singleton] at hev
      rcases hev with (hev | hev) | hev
      · exact (hacc ev hev).1
      · exact (hstep ev hev).1
      · subst hev
        simp [FsEvent.eventOk]
    · intro _
      constructor
      · refine ⟨acc ++ evs, by simp, ?_⟩
        intro ev hev
        simp only [List.mem_append] at hev
        rcases hev with hev | hev
        · exact (hacc ev hev).2
        · exact (hstep ev hev).2
      · refine ⟨evs, sz, cl, ?_, attemptStep_success_cl dest (resp i) evs sz cl h⟩
        simpa using h
    · intro e' he'
      exact absurd he' (by simp)
  | case3 retry i acc evs h e h2 =>
    intro hacc
    have hstep := attemptStep_events_ok dest (resp i)
    rw [h] at hstep
    simp only [AttemptStep.events] at hstep
    rw [dlLoop_exhaust dest resp retry i acc evs e h h2]
    refine ⟨?_, ?_, ?_⟩
    · intro ev hev
      simp only [List.mem_append] at hev
      rcases hev with hev | hev
      · exact (hacc ev hev).1
      · exact (hstep ev hev).1
    · intro hok
      exact absurd hok (by simp)
    · intro e' he' ev hev
      simp only [List.mem_append] at hev
      rcases hev with hev | hev
      · exact (hacc ev hev).2
      · exact (hstep ev hev).2
  | case4 retry i acc evs h r' h2 ih =>
    intro hacc
    have hstep := attemptStep_events_ok dest (resp i)
    rw [h] at hstep
    simp only [AttemptStep.events] at hstep
    rw [dlLoop_retry dest resp retry i acc evs r' h h2]
    refine ih ?_
    intro ev hev
    simp only [List.mem_append] at hev
    rcases hev with hev | hev
    · exact hacc ev hev
    · exact hstep ev hev

/-- C3, counterexample.  The claim says a download whose every attempt
fails with a size mismatch is retried "exactly up to the configured retry
budget (default 5 attempts)" and then surfaces "the original
connection/size error".  On a response that always delivers 5 bytes
against a declared Content-Length of 9, the fetcher makes 6 attempts (the
initial attempt plus the 5 retries of `Retry(total=5)`) and what escapes
is urllib3's `MaxRetryError`, raised by `Retry.increment` — not the
original `WrongSize` — and the fetcher's own `if next_retry is None`
branch (which would set the failure flag and re-raise the original error)
never runs, because `increment` never returns `None`. -/
theorem claim_C3_counterexample :
    (download "foo.nar" (fun _ => HttpResponse.body [5] (some 9) none)).attempts = 6 ∧
    (download "foo.nar" (fun _ => HttpResponse.body [5] (some 9) none)).result =
      Except.error DlErr.maxRetryError := by
  have h := dlLoop_all_retriable "foo.nar" (fun _ => HttpResponse.body [5] (some 9) none)
    (fun j => rfl) 5 retries 0 [FsEvent.mkdirParents] rfl
  simpa [download] using h

/-- C3 (amended): for a download whose every attempt fails with a
connection error mid-body or a size mismatch, the fetcher makes exactly 6
attempts (the initial attempt plus the `Retry(total=5)` budget) and then
`MaxRetryError` — raised by `Retry.increment`, not the original error —
propagates to the caller.  The fetcher itself does not set the
process-wide failure flag (its flag-setting branch is unreachable); the
flag is set only when the escaped exception reaches the top-level
handler. -/
theorem claim_C3_amended (dest : String) (resp : Nat → HttpResponse)
    (hall : ∀ j, (attemptStep dest (resp j)).isRetriable = true) :
    (download dest resp).attempts = 6 ∧
    (download dest resp).result = Except.error DlErr.maxRetryError := by
  have h := dlLoop_all_retriable dest resp hall 5 retries 0 [FsEvent.mkdirParents] rfl
  simpa [download] using h

/-- C3, witness: a response whose body always aborts with a connection
error after one chunk exhausts the retry budget after 6 attempts. -/
theorem claim_C3_witness :
    (download "bar.nar" (fun _ => HttpResponse.body [3] none (some 1))).attempts = 6 ∧
    (download "bar.nar" (fun _ => HttpResponse.body [3] none (some 1))).result =
      Except.error DlErr.maxRetryError :=
  claim_C3_amended "bar.nar" (fun _ => HttpResponse.body [3] none (some 1)) (fun j => rfl)

/-- C5 (confirmed): the fetcher never writes to the destination path.
Every filesystem event of `download` either writes to the hidden sibling
temp path or is the single temp-to-destination rename; that rename occurs
exactly once, as the very last event, and only on success; on success the
final attempt completed its whole body and any declared content length
equals the written byte count; on any error no rename happens at all, so
the destination name never appears. -/
theorem claim_C5_fetcher_atomic (dest : String) (resp : Nat → HttpResponse) :
    (∀ ev ∈ (download dest resp).events, ev.eventOk dest = true) ∧
    ((download dest resp).result = .ok () →
      (∃ init, (download dest resp).events =
          init ++ [FsEvent.rename (FPath.tmpOf dest) (FPath.finalOf dest)] ∧
        ∀ ev ∈ init, ev.isRename = false) ∧
      ∃ evs sz cl, attemptStep dest (resp ((download dest resp).attempts - 1)) =
          AttemptStep.success evs sz cl ∧ (cl = none ∨ cl = some sz)) ∧
    (∀ e, (download dest resp).result = .error e →
      ∀ ev ∈ (download dest resp).events, ev.isRename = false) := by
  have h := dlLoop_events_spec dest resp retries 0 [FsEvent.mkdirParents] ?_
  · simpa [download] using h
  · intro ev hev
    simp only [List.mem_singleton] at hev
    subst hev
    exact ⟨rfl, rfl⟩

/-- C5, witness: a download that succeeds on its first attempt (3 bytes
against a declared Content-Length of 3) touches only the temp path
before its final rename. -/
theorem claim_C5_witness :
    (download "nix-cache-info" (fun _ => HttpResponse.body [3] (some 3) none)).result =
      .ok () ∧
    ((download "nix-cache-info" (fun _ => HttpResponse.body [3] (some 3) none)).events.all
      (fun ev => ev.eventOk "nix-cache-info")) = true := by
  have hok : (download "nix-cache-info" (fun _ => HttpResponse.body [3] (some 3) none)).result =
      .ok () := by
    rw [download, dlLoop_success "nix-cache-info"
      (fun _ => HttpResponse.body [3] (some 3) none) retries 0 [FsEvent.mkdirParents]
      [FsEvent.openW (FPath.tmpOf "nix-cache-info"),
        FsEvent.writeChunk (FPath.tmpOf "nix-cache-info") 3] 3 (some 3) rfl]
  refine ⟨hok, List.all_eq_true.mpr ?_⟩
  intro ev hev
  exact (claim_C5_fetcher_atomic "nix-cache-info"
    (fun _ => HttpResponse.body [3] (some 3) none)).1 ev hev

/-- C10, counterexample.  The claim says that when the upstream
`nix-cache-info` declares any priority other than 40, the file is written
back unchanged.  A file declaring `Priority: 400` contains the literal
substring `Priority: 40`, so `str.replace` rewrites it: with the default
`CACHE_PRIORITY` of 10 the line becomes `Priority: 100` — the file is not
written back unchanged. -/
theorem claim_C10_counterexample :
    rewriteCacheInfo "10" "StoreDir: /nix/store\nPriority: 400\n" =
      "StoreDir: /nix/store\nPriority: 100\n" ∧
    "StoreDir: /nix/store\nPriority: 100\n" ≠ "StoreDir: /nix/store\nPriority: 400\n" := by
  exact ⟨rfl, by decide⟩

/-- C10 (amended): when cache-priority rewriting is enabled, the rewrite
replaces exactly the occurrences of the literal substring `Priority: 40`
with `Priority: ` followed by the configured value; a file containing no
occurrence of that substring — whatever priority it declares — is written
back byte-identically.  (A declared priority whose text merely *contains*
`Priority: 40`, such as `Priority: 400`, is still partially rewritten.) -/
theorem claim_C10_amended (priorityStr data : String)
    (h : strHasSub "Priority: 40" data = false) :
    rewriteCacheInfo priorityStr data = data := by
  have := replaceSub_of_not_hasSubstr ("Priority: 40" : String).data
    ("Priority: " ++ priorityStr).data data.data h
  simp only [rewriteCacheInfo, pyReplace, this]

/-- C10, witness: a cache-info file declaring `Priority: 30` contains no
occurrence of `Priority: 40` and is left unchanged. -/
theorem claim_C10_witness :
    rewriteCacheInfo "10" "StoreDir: /nix/store\nPriority: 30\n" =
      "StoreDir: /nix/store\nPriority: 30\n" :=
  claim_C10_amended "10" "StoreDir: /nix/store\nPriority: 30\n" (by decide)

/-! ### Channel cloning (`clone_channels`)

One loop iteration per `(channel, chan_updated)` pair from
`get_channels()`.  Network and filesystem probes are oracles; the
externally visible actions are recorded in program order.  The outcome of
each `download` call is supplied as an `Except DlErr Unit` oracle — the
`download` model above describes what such a call does internally.
-/

/-- Python `s.endswith(pat)`. -/
def endsWithL (pat s : List Char) : Bool := startsWithL pat.reverse s.reverse

/-- String-level wrapper for `endsWithL`. -/
def strEndsWith (pat s : String) : Bool := endsWithL pat.data s.data

/-- A `datetime` value as compared by Python (lexicographically by
component; every value the script compares is timezone-aware UTC). -/
structure PyDateTime where
  year : Nat
  month : Nat
  day : Nat
  hour : Nat
  minute : Nat
  second : Nat
deriving DecidableEq

/-- Python `datetime` strict comparison `a < b`. -/
def PyDateTime.lt (a b : PyDateTime) : Bool :=
  if a.year ≠ b.year then decide (a.year < b.year)
  else if a.month ≠ b.month then decide (a.month < b.month)
  else if a.day ≠ b.day then decide (a.day < b.day)
  else if a.hour ≠ b.hour then decide (a.hour < b.hour)
  else if a.minute ≠ b.minute then decide (a.minute < b.minute)
  else decide (a.second < b.second)

/-- `CLONE_SINCE = datetime(2020, 3, 6, tzinfo=pytz.utc)`: channels not
updated since the move of nixos.org to Netlify are assumed defunct. -/
def CLONE_SINCE : PyDateTime := ⟨2020, 3, 6, 0, 0, 0⟩

/-- One 3-column row of the release page's table: `file_name` and
`file_hash` (the size column is read into `_file_size` and unused). -/
structure ManifestRow where
  fileName : String
  fileHash : String
deriving DecidableEq

/-- Result of `http_get(chan_location)` plus tagline parsing. -/
inductive ManifestFetch where
  /-- `release_res.status_code == 404`: warn and skip the channel. -/
  | notFound
  /-- `release_res.raise_for_status()` raises (non-404 error status);
  the exception aborts `clone_channels`. -/
  | httpError
  /-- a page; `taglineTime` is the group captured by
  `re.match(r'^Released on (.+) from', tagline)` (`none` when the
  regex does not match — warn and skip), `rows` its table rows. -/
  | page (taglineTime : Option String) (rows : List ManifestRow)

/-- Oracles consulted while processing one channel's manifest rows. -/
structure RowEnv where
  /-- does `release_path / fileName` exist with `file_sha256` equal to
  the row's hash (the cheap-resume check)? -/
  existingMatches : String → Bool
  /-- the outcome of `download(chan_location/file_name, release_path/dest)`. -/
  dlResult : String → Except DlErr Unit
  /-- does `file_sha256(release_path / dest)` equal the row's expected
  hash after the download? -/
  downloadedMatches : String → Bool

/-- Everything `clone_channels` observes about one channel. -/
structure ChannelInput where
  name : String
  /-- the listing's `last_modified` for this channel. -/
  chanUpdated : PyDateTime
  /-- the last `/`-component of `x-amz-website-redirect-location`. -/
  chanRelease : String
  /-- `os.readlink(chan_path)` when `chan_path` is a symlink, else `none`. -/
  liveLink : Option String
  /-- `os.readlink(chan_path_update)` when it is a symlink, else `none`
  (also used for the `chan_path_update.exists()` probe). -/
  stagedLink : Option String
  manifest : ManifestFetch
  rowEnv : RowEnv

/-- Externally visible actions of `clone_channels` for one channel, in
program order. -/
inductive CloneAction where
  /-- `client.get_object('nix-channels', channel)` — resolve the redirect. -/
  | resolveChannel
  /-- `http_get(chan_location)` — fetch the release page. -/
  | fetchManifest
  /-- `release_path.mkdir(parents=True, exist_ok=True)`. -/
  | mkdirRelease
  /-- write `.released-time`. -/
  | writeReleasedTime
  /-- one `download(chan_location/file_name, release_path/dest)` call. -/
  | downloadFile (fileName dest : String)
  /-- `(release_path / 'binary-cache-url').write_text(binary_cache_url)`. -/
  | writeMarker
  /-- `chan_path_update.unlink()`. -/
  | unlinkStaged
  /-- `chan_path_update.symlink_to(release_target)`. -/
  | setStaged (target : String)
deriving DecidableEq

/-- `release_target = f'releases/{channel}@{chan_release}'`. -/
def releaseTarget (c : ChannelInput) : String :=
  "releases/" ++ c.name ++ "@" ++ c.chanRelease

/-- The destination a manifest row is written to: `binary-cache-url` is
redirected to `.original-binary-cache-url`. -/
def rowDest (fileName : String) : String :=
  if fileName = "binary-cache-url" then ".original-binary-cache-url" else fileName

/-- Outcome of the `for row in node('tr')` loop. -/
structure RowsOut where
  actions : List CloneAction
  /-- `has_hash_fail` — also exactly when the global `failure` flag was
  set by this loop. -/
  hasHashFail : Bool
  /-- an exception escaped a `download` call, aborting `clone_channels`. -/
  raised : Bool
deriving DecidableEq

/-- The manifest-row loop: skip disk images and already-verified files;
otherwise download and hash-check.  A hash mismatch sets the global
failure flag and `has_hash_fail` but the loop continues; a `download`
exception aborts everything. -/
def processRows (env : RowEnv) : List ManifestRow → RowsOut
  | [] => ⟨[], false, false⟩
  | row :: rest =>
    if strEndsWith ".ova" row.fileName || strEndsWith ".iso" row.fileName then
      processRows env rest
    else if env.existingMatches row.fileName then
      processRows env rest
    else
      let dest := rowDest row.fileName
      match env.dlResult row.fileName with
      | .error _ => ⟨[.downloadFile row.fileName dest], false, true⟩
      | .ok _ =>
        let tail := processRows env rest
        ⟨.downloadFile row.fileName dest :: tail.actions,
          (!env.downloadedMatches row.fileName) || tail.hasHashFail,
          tail.raised⟩

/-- Result of `clone_channels` for one channel. -/
structure CloneChanResult where
  actions : List CloneAction
  /-- was the channel appended to `channels_to_update`? -/
  addedToUpdate : Bool
  /-- did this channel set the global `failure` flag (hash mismatch)? -/
  flagSet : Bool
  /-- did an exception escape, aborting `clone_channels`? -/
  raised : Bool
deriving DecidableEq

/-- One iteration of the `for channel, chan_updated in get_channels()`
loop of `clone_channels`. -/
def cloneChannel (cloneSince : PyDateTime) (c : ChannelInput) : CloneChanResult :=
  if c.chanUpdated.lt cloneSince then ⟨[], false, false, false⟩
  else
    if c.liveLink = some (releaseTarget c) then ⟨[.resolveChannel], false, false, false⟩
    else if c.stagedLink = some (releaseTarget c) then ⟨[.resolveChannel], true, false, false⟩
    else
      match c.manifest with
      | .notFound => ⟨[.resolveChannel, .fetchManifest], false, false, false⟩
      | .httpError => ⟨[.resolveChannel, .fetchManifest], false, false, true⟩
      | .page none _ => ⟨[.resolveChannel, .fetchManifest], false, false, false⟩
      | .page (some _) rows =>
        let pre := [CloneAction.resolveChannel, .fetchManifest, .mkdirRelease,
          .writeReleasedTime]
        let ro := processRows c.rowEnv rows
        if ro.raised then
          ⟨pre ++ ro.actions, false, ro.hasHashFail, true⟩
        else
          let post :=
            if ro.hasHashFail then [CloneAction.writeMarker]
            else [CloneAction.writeMarker] ++
              (if c.stagedLink.isSome then [CloneAction.unlinkStaged] else []) ++
              [CloneAction.setStaged (releaseTarget c)]
          ⟨pre ++ ro.actions ++ post, !ro.hasHashFail, ro.hasHashFail, false⟩

/-- Is the action the release-page fetch? -/
def CloneAction.isFetch : CloneAction → Bool
  | .fetchManifest => true
  | _ => false

/-- Is the action a `download` call? -/
def CloneAction.isDownloadF : CloneAction → Bool
  | .downloadFile _ _ => true
  | _ => false

/-- Does the action mutate the staged pointer? -/
def CloneAction.isPointerChange : CloneAction → Bool
  | .unlinkStaged => true
  | .setStaged _ => true
  | _ => false

/-- Every action the manifest-row loop emits is a `download` call. -/
theorem processRows_actions_downloads (env : RowEnv) :
    ∀ rows, ∀ a ∈ (processRows env rows).actions, a.isDownloadF = true := by
  intro rows
  induction rows with
  | nil => intro a ha; simp [processRows] at ha
  | cons row rest ih =>
    intro a ha
    simp only [processRows] at ha
    split at ha
    · exact ih a ha
    · split at ha
      · exact ih a ha
      · split at ha
        · simp only [List.mem_singleton] at ha
          subst ha; rfl
        · simp only [List.mem_cons] at ha
          rcases ha with h | h
          · subst h; rfl
          · exact ih a h

/-- C9 (confirmed): a channel whose upstream `last_modified` is before
`CLONE_SINCE` (2020-03-06 00:00 UTC) is skipped before anything happens:
no redirect resolution, no release-page fetch, no downloads, no pointer
action, not added to `channels_to_update`, no failure recorded. -/
theorem claim_C9_clone_cutoff (c : ChannelInput)
    (h : c.chanUpdated.lt CLONE_SINCE = true) :
    cloneChannel CLONE_SINCE c = ⟨[], false, false, false⟩ := by
  rw [cloneChannel, if_pos h]

/-- C9, witness: a channel last modified on 2019-12-31 is skipped. -/
theorem claim_C9_witness :
    cloneChannel CLONE_SINCE
      { name := "nixpkgs-19.09-darwin"
        chanUpdated := ⟨2019, 12, 31, 0, 0, 0⟩
        chanRelease := "r1"
        liveLink := none
        stagedLink := none
        manifest := .notFound
        rowEnv := ⟨fun _ => false, fun _ => .ok (), fun _ => true⟩ } =
      ⟨[], false, false, false⟩ :=
  claim_C9_clone_cutoff _ (by decide)

/-- C6 (confirmed): when the live pointer already targets the
upstream-resolved release, the channel is skipped right after redirect
resolution: no release-page fetch, no `download` call, no pointer
mutation (so the live and staged symlinks are untouched), and the channel
is not added to `channels_to_update` — hence `update_channels` will not
rename its staged pointer either.  (The same holds when the date cutoff
skips the channel even earlier.) -/
theorem claim_C6_idempotent_skip (c : ChannelInput)
    (h : c.liveLink = some (releaseTarget c)) :
    ((cloneChannel CLONE_SINCE c).actions.all
      (fun a => !a.isFetch && !a.isDownloadF && !a.isPointerChange)) = true ∧
    (cloneChannel CLONE_SINCE c).addedToUpdate = false := by
  rw [cloneChannel]
  split
  · exact ⟨rfl, rfl⟩
  · exact ⟨rfl, rfl⟩

/-- C6, witness: a channel whose live symlink already reads
`releases/nixos-24.05-small@r7` performs no fetch, no download and no
pointer change. -/
theorem claim_C6_witness :
    ((cloneChannel CLONE_SINCE
      { name := "nixos-24.05-small"
        chanUpdated := ⟨2024, 6, 1, 0, 0, 0⟩
        chanRelease := "r7"
        liveLink := some "releases/nixos-24.05-small@r7"
        stagedLink := none
        manifest := .notFound
        rowEnv := ⟨fun _ => false, fun _ => .ok (), fun _ => true⟩ }).actions.all
      (fun a => !a.isFetch && !a.isDownloadF && !a.isPointerChange)) = true ∧
    (cloneChannel CLONE_SINCE
      { name := "nixos-24.05-small"
        chanUpdated := ⟨2024, 6, 1, 0, 0, 0⟩
        chanRelease := "r7"
        liveLink := some "releases/nixos-24.05-small@r7"
        stagedLink := none
        manifest := .notFound
        rowEnv := ⟨fun _ => false, fun _ => .ok (), fun _ => true⟩ }).addedToUpdate = false :=
  claim_C6_idempotent_skip _ rfl

/-- A channel whose single manifest file downloads but fails its hash
check (used by the C1 counterexample). -/
def hashFailChannel : ChannelInput :=
  { name := "nixos-23.11-small"
    chanUpdated := ⟨2024, 1, 1, 0, 0, 0⟩
    chanRelease := "nixos-23.11-small.123"
    liveLink := none
    stagedLink := none
    manifest := .page (some "2024-01-01 00:00:00") [⟨"nixexprs.tar.xz", "deadbeef"⟩]
    rowEnv :=
      { existingMatches := fun _ => false
        dlResult := fun _ => .ok ()
        downloadedMatches := fun _ => false } }

/-- C1, counterexample.  The claim says a release with a hash-mismatched
manifest file "is left without the marker and without a staged pointer".
On a channel whose single manifest file hash-mismatches, the global
failure flag is set and no staged pointer is created — but
`binary-cache-url` (the completion marker) IS written: line 267 of the
source runs unconditionally after the row loop, before the
`has_hash_fail` check. -/
theorem claim_C1_counterexample :
    (cloneChannel CLONE_SINCE hashFailChannel).flagSet = true ∧
    CloneAction.writeMarker ∈ (cloneChannel CLONE_SINCE hashFailChannel).actions ∧
    (cloneChannel CLONE_SINCE hashFailChannel).actions.all
      (fun a => !a.isPointerChange) = true := by
  decide

/-- C1 (amended): for a channel that reaches the manifest-download loop
and completes it without a download exception, the completion marker is
written exactly once, after every `download` call of the loop — but it is
written regardless of hash verification; only the staged pointer is
withheld on a hash mismatch: `setStaged` appears in the actions exactly
when no manifest file hash-mismatched, and the global failure flag
records exactly whether some file hash-mismatched. -/
theorem claim_C1_amended (c : ChannelInput) (t : String) (rows : List ManifestRow)
    (hm : c.manifest = ManifestFetch.page (some t) rows)
    (hdate : c.chanUpdated.lt CLONE_SINCE = false)
    (hlive : c.liveLink ≠ some (releaseTarget c))
    (hstaged : c.stagedLink ≠ some (releaseTarget c))
    (hnr : (processRows c.rowEnv rows).raised = false) :
    (∃ pre post, (cloneChannel CLONE_SINCE c).actions = pre ++ CloneAction.writeMarker :: post ∧
      (∀ a ∈ pre, a ≠ CloneAction.writeMarker) ∧
      (∀ a ∈ post, a.isDownloadF = false ∧ a ≠ CloneAction.writeMarker)) ∧
    ((∃ tgt, CloneAction.setStaged tgt ∈ (cloneChannel CLONE_SINCE c).actions) ↔
      (processRows c.rowEnv rows).hasHashFail = false) ∧
    (cloneChannel CLONE_SINCE c).flagSet = (processRows c.rowEnv rows).hasHashFail := by
  have hpre4 : ∀ a ∈ [CloneAction.resolveChannel, CloneAction.fetchManifest,
      CloneAction.mkdirRelease, CloneAction.writeReleasedTime],
      a ≠ CloneAction.writeMarker ∧ (∀ s, a ≠ CloneAction.setStaged s) := by
    intro a ha
    fin_cases ha <;> exact ⟨by simp, fun s => by simp⟩
  have hro : ∀ a ∈ (processRows c.rowEnv rows).actions,
      a ≠ CloneAction.writeMarker ∧ (∀ s, a ≠ CloneAction.setStaged s) := by
    intro a ha
    have hdl := processRows_actions_downloads c.rowEnv rows a ha
    constructor
    · intro heq; subst heq; simp [CloneAction.isDownloadF] at hdl
    · intro s heq; subst heq; simp [CloneAction.isDownloadF] at hdl
  simp only [cloneChannel, hdate, hm, if_neg hlive, if_neg hstaged, hnr,
    Bool.false_eq_true, if_false]
  cases hhf : (processRows c.rowEnv rows).hasHashFail with
  | true =>
    simp only [hhf, if_true]
    refine ⟨⟨[CloneAction.resolveChannel, CloneAction.fetchManifest,
      CloneAction.mkdirRelease, CloneAction.writeReleasedTime] ++
        (processRows c.rowEnv rows).actions, [], by simp, ?_, by simp⟩, ?_, by trivial⟩
    · intro a ha
      rw [List.mem_append] at ha
      rcases ha with ha | ha
      · exact (hpre4 a ha).1
      · exact (hro a ha).1
    · simp only [Bool.true_eq_false, iff_false]
      rintro ⟨tgt, hmem⟩
      simp only [List.append_assoc, List.mem_append, List.mem_singleton] at hmem
      rcases hmem with ha | ha | ha
      · exact (hpre4 _ ha).2 tgt rfl
      · exact (hro _ ha).2 tgt rfl
      · cases ha
  | false =>
    simp only [hhf, if_false]
    refine ⟨⟨[CloneAction.resolveChannel, CloneAction.fetchManifest,
      CloneAction.mkdirRelease, CloneAction.writeReleasedTime] ++
        (processRows c.rowEnv rows).actions,
      (if c.stagedLink.isSome then [CloneAction.unlinkStaged] else []) ++
        [CloneAction.setStaged (releaseTarget c)], by simp, ?_, ?_⟩, ?_, by trivial⟩
    · intro a ha
      rw [List.mem_append] at ha
      rcases ha with ha | ha
      · exact (hpre4 a ha).1
      · exact (hro a ha).1
    · intro a ha
      rw [List.mem_append] at ha
      rcases ha with ha | ha
      · split at ha
        · simp only [List.mem_singleton] at ha
          subst ha
          exact ⟨rfl, by simp⟩
        · cases ha
      · simp only [List.mem_singleton] at ha
        subst ha
        exact ⟨rfl, by simp⟩
    · constructor
      · intro _; trivial
      · intro _
        exact ⟨releaseTarget c, by simp⟩

/-- A channel whose single manifest file downloads and verifies (used by
the C1 witness). -/
def goodChannel : ChannelInput :=
  { name := "nixos-24.05-small"
    chanUpdated := ⟨2024, 6, 1, 0, 0, 0⟩
    chanRelease := "nixos-24.05-small.456"
    liveLink := none
    stagedLink := none
    manifest := .page (some "2024-06-01 12:00:00") [⟨"nixexprs.tar.xz", "h123"⟩]
    rowEnv :=
      { existingMatches := fun _ => false
        dlResult := fun _ => .ok ()
        downloadedMatches := fun _ => true } }

/-- C1, witness: a cleanly verifying channel gets the marker and has no
hash failure recorded. -/
theorem claim_C1_witness :
    CloneAction.writeMarker ∈ (cloneChannel CLONE_SINCE goodChannel).actions ∧
    (cloneChannel CLONE_SINCE goodChannel).flagSet =
      (processRows goodChannel.rowEnv [⟨"nixexprs.tar.xz", "h123"⟩]).hasHashFail := by
  obtain ⟨⟨pre, post, hsplit, hpre, hpost⟩, hiff, hflag⟩ :=
    claim_C1_amended goodChannel "2024-06-01 12:00:00" [⟨"nixexprs.tar.xz", "h123"⟩]
      rfl (by decide) (by decide) (by decide) rfl
  refine ⟨?_, hflag⟩
  rw [hsplit]
  exact List.mem_append_right _ (List.mem_cons_self _ _)

/-! ### Bulk mirroring (`update_channels`)

Per channel: read `store-paths.xz`, apply the static texlive exclusion,
batch the paths (`range(0, len(paths), PATH_BATCH)`), run
`nix path-info --store upstream --recursive --json` once per batch
(`for ... else`: a nonzero exit status breaks out and skips the download
section entirely), build the deduplicated job list, run the jobs on the
thread pool, and rename the staged symlink onto the live one unless
`channel_failure` was set.
-/

/-- Chunking with explicit structural fuel (`fuel ≥ l.length` makes the
fuel irrelevant: every step consumes at least the head element). -/
def chunksGo (n : Nat) : Nat → List α → List (List α)
  | _, [] => []
  | 0, l => [l]
  | fuel + 1, x :: xs => (x :: xs.take (n - 1)) :: chunksGo n fuel (xs.drop (n - 1))

/-- `paths[i : i + PATH_BATCH]` for `i in range(0, len(paths), PATH_BATCH)`:
the consecutive batches of size `n` (the last one possibly shorter). -/
def batchesOf (n : Nat) (l : List α) : List (List α) :=
  chunksGo n l.length l

/-- The workaround filter: drop store paths containing
`texlive-2022-env-man` or `texlive-2022-env-info`. -/
def texliveFilter (paths : List String) : List String :=
  paths.filter (fun p =>
    !strHasSub "texlive-2022-env-man" p && !strHasSub "texlive-2022-env-info" p)

/-- One entry of the `nix path-info --json` output: the store path and
its relative NAR url. -/
structure PathInfoEntry where
  path : String
  url : String
deriving DecidableEq

/-- Result of one `nix path-info` invocation on a batch. -/
inductive BatchResult where
  /-- `process.returncode == 0`, with the parsed JSON entries. -/
  | ok (infos : List PathInfoEntry)
  /-- a nonzero `process.returncode`. -/
  | fail (code : Int)

/-- The `for i in range(...)` loop over batches: invoke the oracle on
each batch in order; the first failure breaks out (skipping the `else`
clause).  Returns how many invocations were made and either the
concatenated entries or the failure. -/
def runOracle (oracle : List String → BatchResult) :
    List (List String) → Nat × Except Unit (List PathInfoEntry)
  | [] => (0, .ok [])
  | b :: bs =>
    match oracle b with
    | .fail _ => (1, .error ())
    | .ok infos =>
      let r := runOracle oracle bs
      (r.1 + 1, r.2.map (fun rest => infos ++ rest))

/-- Build the deduplicated job list: for each entry the pair
`[url, hash.narinfo]`, skipping names already scheduled this run
(`seen_paths`). -/
def buildTodo : List PathInfoEntry → List String → List (List String)
  | [], _ => []
  | info :: rest, seen =>
    let ha := hash_part info.path
    let oneTodo := [info.url, ha ++ ".narinfo"].filter (fun nm => !seen.contains nm)
    if oneTodo.isEmpty then buildTodo rest (seen ++ oneTodo)
    else oneTodo :: buildTodo rest (seen ++ oneTodo)

/-- `try_mirror`: download each of a job's paths, skipping files that
already exist; a `ConnectionError` or `WrongSize` makes the job report
`False`; any other exception (for example `MaxRetryError` or `HTTPError`
out of `download`) propagates. -/
def tryMirror (existsFs : String → Bool) (dlResult : String → Except DlErr Unit) :
    List String → Except DlErr Bool
  | [] => .ok true
  | p :: rest =>
    if existsFs p then tryMirror existsFs dlResult rest
    else
      match dlResult p with
      | .ok _ => tryMirror existsFs dlResult rest
      | .error .connectionError => .ok false
      | .error .wrongSize => .ok false
      | .error e => .error e

/-- `all(results)` over the lazy `executor.map` generator: results are
consumed in order; the first `False` short-circuits `all` (so later
exceptions are never re-raised); an exception re-raised during
consumption propagates. -/
def consumeAll : List (Except DlErr Bool) → Except DlErr Bool
  | [] => .ok true
  | .error e :: _ => .error e
  | .ok false :: _ => .ok false
  | .ok true :: rest => consumeAll rest

/-- Everything `update_channels` observes about one channel. -/
structure UpdateChanInput where
  name : String
  /-- the decoded lines of `store-paths.xz`. -/
  paths : List String
  /-- `nix path-info --store upstream --recursive --json` on one batch. -/
  oracle : List String → BatchResult
  /-- `dest.exists()` for a store-relative path. -/
  existsFs : String → Bool
  /-- outcome of `download(upstream_binary_cache/path, store/path)`. -/
  dlResult : String → Except DlErr Unit

/-- Result of `update_channels` for one channel. -/
structure UpdateChanResult where
  /-- how many times `nix path-info` was invoked. -/
  oracleCalls : Nat
  /-- the deduplicated job list (empty when the oracle failed). -/
  todo : List (List String)
  /-- was the download section (the `for`-`else` clause) entered? -/
  jobsStarted : Bool
  /-- was the staged symlink renamed onto the live one? -/
  promoted : Bool
  /-- did an exception escape, aborting `update_channels`? -/
  raised : Bool
deriving DecidableEq

/-- One iteration of the `for channel in channels` loop of
`update_channels`. -/
def updateChannel (pathBatch : Nat) (inp : UpdateChanInput) : UpdateChanResult :=
  let paths := texliveFilter inp.paths
  let bs := batchesOf pathBatch paths
  let orc := runOracle inp.oracle bs
  match orc.2 with
  | .error _ => ⟨orc.1, [], false, false, false⟩
  | .ok infos =>
    let todo := buildTodo infos []
    let jobs := todo.map (tryMirror inp.existsFs inp.dlResult)
    match consumeAll jobs with
    | .error _ => ⟨orc.1, todo, true, false, true⟩
    | .ok allOk => ⟨orc.1, todo, true, allOk, false⟩

theorem chunksGo_nil (n fuel : Nat) : chunksGo (α := α) n fuel [] = [] := by
  cases fuel <;> rfl

theorem chunksGo_flatten (n : Nat) :
    ∀ (fuel : Nat) (l : List α), l.length ≤ fuel → (chunksGo n fuel l).flatten = l := by
  intro fuel
  induction fuel with
  | zero =>
    intro l hl
    cases l with
    | nil => rfl
    | cons x xs => simp at hl
  | succ fuel ih =>
    intro l hl
    cases l with
    | nil => rfl
    | cons x xs =>
      simp only [chunksGo, List.flatten_cons]
      rw [ih (xs.drop (n - 1)) (by simp only [List.length_drop]; simp at hl; omega)]
      simp [List.take_append_drop]

theorem chunksGo_batch_size (n : Nat) (hn : 1 ≤ n) :
    ∀ (fuel : Nat) (l : List α), l.length ≤ fuel →
      ∀ b ∈ chunksGo n fuel l, b ≠ [] ∧ b.length ≤ n := by
  intro fuel
  induction fuel with
  | zero =>
    intro l hl b hb
    cases l with
    | nil => simp [chunksGo_nil] at hb
    | cons x xs => simp at hl
  | succ fuel ih =>
    intro l hl b hb
    cases l with
    | nil => simp [chunksGo_nil] at hb
    | cons x xs =>
      simp only [chunksGo, List.mem_cons] at hb
      rcases hb with hb | hb
      · subst hb
        refine ⟨by simp, ?_⟩
        simp only [List.length_cons, List.length_take]
        omega
      · refine ih _ ?_ b hb
        simp only [List.length_drop]
        simp at hl
        omega

theorem chunksGo_dropLast_size (n : Nat) (hn : 1 ≤ n) :
    ∀ (fuel : Nat) (l : List α), l.length ≤ fuel →
      ∀ b ∈ (chunksGo n fuel l).dropLast, b.length = n := by
  intro fuel
  induction fuel with
  | zero =>
    intro l hl b hb
    cases l with
    | nil => simp [chunksGo_nil] at hb
    | cons x xs => simp at hl
  | succ fuel ih =>
    intro l hl b hb
    cases l with
    | nil => simp [chunksGo_nil] at hb
    | cons x xs =>
      simp only [chunksGo] at hb
      cases hrest : chunksGo n fuel (xs.drop (n - 1)) with
      | nil => rw [hrest] at hb; simp at hb
      | cons r rs =>
        rw [hrest] at hb
        have hne : xs.drop (n - 1) ≠ [] := by
          intro hcon
          rw [hcon, chunksGo_nil] at hrest
          cases hrest
        have hlen : n - 1 < xs.length := by
          by_contra hcon
          exact hne (List.drop_eq_nil_of_le (by omega))
        simp only [List.dropLast_cons₂, List.mem_cons] at hb
        rcases hb with hb | hb
        · subst hb
          simp only [List.length_cons, List.length_take]
          omega
        · rw [← hrest] at hb
          refine ih _ ?_ b hb
          simp only [List.length_drop]
          simp at hl
          omega

theorem runOracle_calls_le (oracle : List String → BatchResult) :
    ∀ bs : List (List String), (runOracle oracle bs).1 ≤ bs.length := by
  intro bs
  induction bs with
  | nil => simp [runOracle]
  | cons b rest ih =>
    simp only [runOracle]
    cases oracle b with
    | fail code => simp
    | ok infos =>
      simp only [List.length_cons]
      omega

theorem runOracle_ok_calls (oracle : List String → BatchResult) :
    ∀ (bs : List (List String)) (infos : List PathInfoEntry),
      (runOracle oracle bs).2 = .ok infos → (runOracle oracle bs).1 = bs.length := by
  intro bs
  induction bs with
  | nil => intro infos _; rfl
  | cons b rest ih =>
    intro infos h
    cases horc : oracle b with
    | fail code =>
      simp [runOracle, horc] at h
    | ok infos2 =>
      simp only [runOracle, horc] at h ⊢
      cases hrec : (runOracle oracle rest).2 with
      | error e => rw [hrec] at h; simp [Except.map] at h
      | ok rinfos =>
        rw [ih rinfos hrec]
        simp

/-- C7 (confirmed): the identifier list (after the static texlive
exclusion) is partitioned into consecutive batches — their concatenation
is the whole list, every batch is non-empty and at most `PATH_BATCH`
long, and every batch except possibly the last is exactly `PATH_BATCH`
long; the expansion oracle is invoked once per batch (exactly
`len(batches)` times when all succeed, never more than that); and a
failing batch makes `update_channels` skip the `for`-`else` download
section entirely: no jobs are built or started and the channel pointer is
not promoted. -/
theorem claim_C7_batched_oracle (inp : UpdateChanInput) :
    (batchesOf PATH_BATCH (texliveFilter inp.paths)).flatten = texliveFilter inp.paths ∧
    (∀ b ∈ batchesOf PATH_BATCH (texliveFilter inp.paths), b ≠ [] ∧ b.length ≤ PATH_BATCH) ∧
    (∀ b ∈ (batchesOf PATH_BATCH (texliveFilter inp.paths)).dropLast,
      b.length = PATH_BATCH) ∧
    (runOracle inp.oracle (batchesOf PATH_BATCH (texliveFilter inp.paths))).1 ≤
      (batchesOf PATH_BATCH (texliveFilter inp.paths)).length ∧
    (∀ infos,
      (runOracle inp.oracle (batchesOf PATH_BATCH (texliveFilter inp.paths))).2 =
        .ok infos →
      (runOracle inp.oracle (batchesOf PATH_BATCH (texliveFilter inp.paths))).1 =
        (batchesOf PATH_BATCH (texliveFilter inp.paths)).length) ∧
    ((runOracle inp.oracle (batchesOf PATH_BATCH (texliveFilter inp.paths))).2 =
        .error () →
      updateChannel PATH_BATCH inp =
        ⟨(runOracle inp.oracle (batchesOf PATH_BATCH (texliveFilter inp.paths))).1,
          [], false, false, false⟩) := by
  refine ⟨chunksGo_flatten PATH_BATCH _ _ le_rfl,
    chunksGo_batch_size PATH_BATCH (by decide) _ _ le_rfl,
    chunksGo_dropLast_size PATH_BATCH (by decide) _ _ le_rfl,
    runOracle_calls_le inp.oracle _,
    runOracle_ok_calls inp.oracle _,
    ?_⟩
  intro h
  simp only [updateChannel, h]

/-- A channel whose first oracle batch fails (used by the C7 witness). -/
def oracleFailInp : UpdateChanInput :=
  { name := "nixos-23.11-small"
    paths := ["/nix/store/abc-pkg-1.0", "/nix/store/def-pkg-2.0"]
    oracle := fun _ => .fail 1
    existsFs := fun _ => false
    dlResult := fun _ => .ok () }

/-- C7, witness: with a failing oracle the single batch is consulted once
and the channel ends unpromoted with no jobs. -/
theorem claim_C7_witness :
    updateChannel PATH_BATCH oracleFailInp = ⟨1, [], false, false, false⟩ :=
  (claim_C7_batched_oracle oracleFailInp).2.2.2.2.2 rfl

/-! ### Orchestration (`__main__`)

`try: channels = clone_channels(); update_channels(channels) except: failure = True`,
then `sys.exit(1)` exactly when the global `failure` flag is set (garbage
collection is gated behind `COLLECT_GARBAGE`, default off, and modelled
separately below).
-/

/-- A channel as seen by both phases of the run. -/
structure ChannelFull where
  clone : ChannelInput
  upd : UpdateChanInput

/-- The `clone_channels` loop over all listed channels: returns
`channels_to_update`, whether the global failure flag was set (hash
mismatches), and whether an exception escaped (aborting the loop; the
partial update list is then discarded because `__main__` catches the
exception before `update_channels` runs). -/
def cloneRun : List ChannelFull → List ChannelFull × Bool × Bool
  | [] => ([], false, false)
  | c :: rest =>
    let r := cloneChannel CLONE_SINCE c.clone
    if r.raised then ([], r.flagSet, true)
    else
      let t := cloneRun rest
      ((if r.addedToUpdate then [c] else []) ++ t.1, r.flagSet || t.2.1, t.2.2)

/-- The `update_channels` loop: processes channels in order; an escaped
exception aborts the rest.  Returns whether an exception escaped.  Note
that neither an oracle failure nor a caught per-job failure touches the
global failure flag — they only set the local `channel_failure`. -/
def updateRun : List ChannelFull → Bool
  | [] => false
  | c :: rest =>
    if (updateChannel PATH_BATCH c.upd).raised then true
    else updateRun rest

/-- `update_channels(channels)` including the once-per-run
`nix-cache-info` download, whose `download` exception (when the list is
non-empty) escapes before any channel completes. -/
def updateChannelsRun (cacheInfoRaises : Bool) (chans : List ChannelFull) : Bool :=
  match chans with
  | [] => false
  | _ :: _ => if cacheInfoRaises then true else updateRun chans

/-- Everything `__main__` observes. -/
structure RunInput where
  channels : List ChannelFull
  /-- does the `nix-cache-info` download raise? -/
  cacheInfoRaises : Bool

/-- The observable outcome of the process. -/
structure RunResult where
  failureFlag : Bool
  exitCode : Nat
deriving DecidableEq

/-- `__main__` with `COLLECT_GARBAGE` disabled (the default): run both
phases under the `try`, set `failure` on any escaped exception, and exit
1 exactly when `failure` is set. -/
def mainRun (inp : RunInput) : RunResult :=
  let cl := cloneRun inp.channels
  let flag :=
    if cl.2.2 then true
    else cl.2.1 || updateChannelsRun inp.cacheInfoRaises cl.1
  ⟨flag, if flag then 1 else 0⟩

theorem cloneRun_updates_mem :
    ∀ (chans : List ChannelFull) (c : ChannelFull), c ∈ (cloneRun chans).1 → c ∈ chans := by
  intro chans
  induction chans with
  | nil => intro c hc; simp [cloneRun] at hc
  | cons a rest ih =>
    intro c hc
    simp only [cloneRun] at hc
    split at hc
    · simp at hc
    · simp only [List.mem_append] at hc
      rcases hc with hc | hc
      · split at hc
        · simp only [List.mem_singleton] at hc
          subst hc
          exact List.mem_cons_self _ _
        · cases hc
      · exact List.mem_cons_of_mem a (ih c hc)

theorem cloneRun_clean :
    ∀ chans : List ChannelFull,
      (∀ c ∈ chans, (cloneChannel CLONE_SINCE c.clone).flagSet = false ∧
        (cloneChannel CLONE_SINCE c.clone).raised = false) →
      (cloneRun chans).2.1 = false ∧ (cloneRun chans).2.2 = false := by
  intro chans
  induction chans with
  | nil => intro _; exact ⟨rfl, rfl⟩
  | cons a rest ih =>
    intro h
    have ha := h a (List.mem_cons_self a rest)
    have ht := ih (fun c hc => h c (List.mem_cons_of_mem a hc))
    simp only [cloneRun, ha.2, Bool.false_eq_true, if_false, ha.1, Bool.false_or]
    exact ht

theorem updateRun_clean :
    ∀ chans : List ChannelFull,
      (∀ c ∈ chans, (updateChannel PATH_BATCH c.upd).raised = false) →
      updateRun chans = false := by
  intro chans
  induction chans with
  | nil => intro _; rfl
  | cons a rest ih =>
    intro h
    have ha := h a (List.mem_cons_self a rest)
    simp only [updateRun, ha, Bool.false_eq_true, if_false]
    exact ih (fun c hc => h c (List.mem_cons_of_mem a hc))

/-- C2 (amended): the process exits non-zero exactly when the global
failure flag is set — but not every failure sets the flag.  Hash
mismatches during cloning and exceptions escaping either phase set it;
an expansion-oracle batch failure and a caught per-job connection
failure only set the local `channel_failure` (blocking that channel's
promotion) and leave the flag untouched: a run whose only failures are
of those two kinds exits 0. -/
theorem claim_C2_amended (inp : RunInput) :
    ((mainRun inp).exitCode = if (mainRun inp).failureFlag then 1 else 0) ∧
    ((∀ c ∈ inp.channels, (cloneChannel CLONE_SINCE c.clone).flagSet = false ∧
        (cloneChannel CLONE_SINCE c.clone).raised = false) →
      (∀ c ∈ inp.channels, (updateChannel PATH_BATCH c.upd).raised = false) →
      inp.cacheInfoRaises = false →
      mainRun inp = ⟨false, 0⟩) := by
  constructor
  · rfl
  · intro hc hu hcache
    obtain ⟨hf, hr⟩ := cloneRun_clean inp.channels hc
    have hupd : updateChannelsRun inp.cacheInfoRaises (cloneRun inp.channels).1 = false := by
      rw [hcache]
      unfold updateChannelsRun
      cases hcl : (cloneRun inp.channels).1 with
      | nil => rfl
      | cons a rest =>
        simp only [Bool.false_eq_true, if_false]
        rw [← hcl]
        exact updateRun_clean _ (fun c hm => hu c (cloneRun_updates_mem _ c hm))
    simp only [mainRun, hr, hf, hupd, Bool.false_eq_true, if_false, Bool.or_false]

/-- A channel whose cloning succeeds cleanly (no rows, fresh pointers). -/
def cleanCloneChannel : ChannelInput :=
  { name := "nixos-23.11-small"
    chanUpdated := ⟨2024, 1, 1, 0, 0, 0⟩
    chanRelease := "r1"
    liveLink := none
    stagedLink := none
    manifest := .page (some "2024-01-01 00:00:00") []
    rowEnv := ⟨fun _ => false, fun _ => .ok (), fun _ => true⟩ }

/-- A run whose only failure is an expansion-oracle batch failure. -/
def oracleFailRun : RunInput :=
  { channels := [{ clone := cleanCloneChannel, upd := oracleFailInp }]
    cacheInfoRaises := false }

/-- C2, counterexample.  The claim says a closure-expansion oracle
failure on a batch sets the process-wide failure flag and makes the
process exit non-zero.  In a run whose single channel clones cleanly and
then hits an oracle failure on its first batch, promotion is blocked
(`channel_failure`), but the global flag stays false and the process
exits 0: the oracle-failure branch only sets the local per-channel
flag. -/
theorem claim_C2_counterexample :
    mainRun oracleFailRun = ⟨false, 0⟩ ∧
    (updateChannel PATH_BATCH oracleFailInp).oracleCalls = 1 ∧
    (updateChannel PATH_BATCH oracleFailInp).promoted = false :=
  ⟨rfl, rfl, rfl⟩

/-- An update-phase input with nothing to do (used by the C2 witness). -/
def cleanUpdInput : UpdateChanInput :=
  { name := "nixos-23.11-small"
    paths := []
    oracle := fun _ => .ok []
    existsFs := fun _ => false
    dlResult := fun _ => .ok () }

/-- A fully clean run (used by the C2 witness). -/
def cleanRun : RunInput :=
  { channels := [⟨cleanCloneChannel, cleanUpdInput⟩]
    cacheInfoRaises := false }

/-- C2, witness: a fully clean run exits 0 with the flag unset. -/
theorem claim_C2_witness :
    ((mainRun cleanRun).exitCode = if (mainRun cleanRun).failureFlag then 1 else 0) ∧
    mainRun cleanRun = ⟨false, 0⟩ :=
  ⟨(claim_C2_amended cleanRun).1,
    (claim_C2_amended cleanRun).2
      (by intro c hc; simp [cleanRun] at hc; subst hc; exact ⟨rfl, rfl⟩)
      (by intro c hc; simp [cleanRun] at hc; subst hc; rfl)
      rfl⟩

/-! ### Garbage collection (`garbage_collect`)

First loop: over the release directories, skipping those without the
`binary-cache-url` completion marker, collect `alive` (releases at or
after `now - RETAIN_DAYS`) and the `last_updated`/`latest` dictionaries
(newest marked release per channel, strict `<`, first-seen wins ties);
then `alive.update(latest.values())`.  Second loop: over `store/*.narinfo`
records, count those outside the computed closure and, when `DELETE_OLD`,
parse each one (outside any `try`!) and unlink the record and its `URL`
payload, each unlink in its own bare `try/except: pass`.
-/

/-- One `releases/` directory entry as observed by `garbage_collect`.
Release dates are modelled as integers (Python `datetime` comparison is
order-isomorphic to a timestamp). -/
structure GcRelease where
  channel : String
  releasedDate : Int
  hasMarker : Bool
  /-- the release directory name, to tell distinct releases apart. -/
  dirName : String
deriving DecidableEq

/-- A Python `dict` as an association list with unique keys: first lookup
wins, update replaces in place or appends. -/
def lookA : List (String × α) → String → Option α
  | [], _ => none
  | (k, v) :: rest, key => if k = key then some v else lookA rest key

/-- `dict[key] = v`. -/
def updA : List (String × α) → String → α → List (String × α)
  | [], key, v => [(key, v)]
  | (k, w) :: rest, key, v =>
    if k = key then (key, v) :: rest else (k, w) :: updA rest key v

/-- State of the first `garbage_collect` loop. -/
structure GcState where
  lastUpdated : List (String × Int)
  latest : List (String × GcRelease)
  alive : List GcRelease

/-- One iteration of the release loop. -/
def gcStep (threshold : Int) (st : GcState) (r : GcRelease) : GcState :=
  if r.hasMarker = false then st
  else
    let alive2 := if threshold ≤ r.releasedDate then st.alive ++ [r] else st.alive
    match lookA st.lastUpdated r.channel with
    | none =>
      { lastUpdated := updA st.lastUpdated r.channel r.releasedDate
        latest := updA st.latest r.channel r
        alive := alive2 }
    | some d =>
      if d < r.releasedDate then
        { lastUpdated := updA st.lastUpdated r.channel r.releasedDate
          latest := updA st.latest r.channel r
          alive := alive2 }
      else { st with alive := alive2 }

/-- The retained-release set: the first loop followed by
`alive.update(latest.values())`. -/
def gcAlive (threshold : Int) (rels : List GcRelease) : List GcRelease :=
  let st := rels.foldl (gcStep threshold) ⟨[], [], []⟩
  st.alive ++ st.latest.map Prod.snd

theorem lookA_updA_self : ∀ (m : List (String × α)) (k : String) (v : α),
    lookA (updA m k v) k = some v
  | [], k, v => by simp [updA, lookA]
  | (k0, w) :: rest, k, v => by
    simp only [updA]
    split
    · simp [lookA]
    · rename_i h
      simp only [lookA]
      rw [if_neg h]
      exact lookA_updA_self rest k v

theorem lookA_updA_ne : ∀ (m : List (String × α)) (k : String) (v : α) (k' : String),
    k ≠ k' → lookA (updA m k v) k' = lookA m k'
  | [], k, v, k' => by
    intro h
    simp [updA, lookA, if_neg h]
  | (k0, w) :: rest, k, v, k' => by
    intro h
    simp only [updA]
    split
    · rename_i h0
      subst h0
      simp only [lookA, if_neg h]
    · rename_i h0
      simp only [lookA]
      split
      · rfl
      · exact lookA_updA_ne rest k v k' h

theorem lookA_mem : ∀ (m : List (String × α)) (k : String) (v : α),
    lookA m k = some v → (k, v) ∈ m
  | [], k, v => by intro h; simp [lookA] at h
  | (k0, w) :: rest, k, v => by
    intro h
    simp only [lookA] at h
    split at h
    · rename_i heq
      injection h with h
      subst heq h
      exact List.mem_cons_self _ _
    · exact List.mem_cons_of_mem _ (lookA_mem rest k v h)

/-- Keys of an association list. -/
def keysOf (m : List (String × α)) : List String := m.map Prod.fst

theorem keysOf_updA_sub : ∀ (m : List (String × α)) (k : String) (v : α),
    ∀ k' ∈ keysOf (updA m k v), k' ∈ keysOf m ∨ k' = k
  | [], k, v => by simp [updA, keysOf]
  | (k0, w) :: rest, k, v => by
    intro k' hk'
    simp only [updA] at hk'
    split at hk'
    · rename_i h0
      simp only [keysOf, List.map_cons, List.mem_cons] at hk' ⊢
      rcases hk' with hk' | hk'
      · exact Or.inr hk'
      · exact Or.inl (Or.inr hk')
    · rename_i h0
      simp only [keysOf, List.map_cons, List.mem_cons] at hk' ⊢
      rcases hk' with hk' | hk'
      · exact Or.inl (Or.inl hk')
      · rcases keysOf_updA_sub rest k v k' hk' with h | h
        · exact Or.inl (Or.inr h)
        · exact Or.inr h

theorem nodup_keysOf_updA : ∀ (m : List (String × α)) (k : String) (v : α),
    (keysOf m).Nodup → (keysOf (updA m k v)).Nodup
  | [], k, v => by simp [updA, keysOf]
  | (k0, w) :: rest, k, v => by
    intro h
    simp only [keysOf, List.map_cons, List.nodup_cons] at h
    simp only [updA]
    split
    · rename_i h0
      subst h0
      simp only [keysOf, List.map_cons, List.nodup_cons]
      exact h
    · rename_i h0
      simp only [keysOf, List.map_cons, List.nodup_cons]
      constructor
      · intro hcon
        rcases keysOf_updA_sub rest k v k0 hcon with hmem | heq
        · exact h.1 hmem
        · exact h0 heq
      · exact nodup_keysOf_updA rest k v h.2

theorem lookA_of_mem_nodup : ∀ (m : List (String × α)) (k : String) (v : α),
    (keysOf m).Nodup → (k, v) ∈ m → lookA m k = some v
  | [], k, v => by intro _ hmem; simp at hmem
  | (k0, w) :: rest, k, v => by
    intro hnd hmem
    simp only [keysOf, List.map_cons, List.nodup_cons] at hnd
    simp only [List.mem_cons] at hmem
    rcases hmem with hmem | hmem
    · injection hmem with h1 h2
      subst h1 h2
      simp [lookA]
    · simp only [lookA]
      rw [if_neg ?_]
      · exact lookA_of_mem_nodup rest k v hnd.2 hmem
      · intro heq
        subst heq
        exact hnd.1 (List.mem_map_of_mem Prod.fst hmem)


theorem gcStep_skip (threshold : Int) (st : GcState) (r : GcRelease)
    (h : r.hasMarker = false) : gcStep threshold st r = st := by
  rw [gcStep, if_pos h]

theorem gcStep_new (threshold : Int) (st : GcState) (r : GcRelease)
    (h : r.hasMarker = true) (hl : lookA st.lastUpdated r.channel = none) :
    gcStep threshold st r =
      { lastUpdated := updA st.lastUpdated r.channel r.releasedDate
        latest := updA st.latest r.channel r
        alive := if threshold ≤ r.releasedDate then st.alive ++ [r] else st.alive } := by
  rw [gcStep, if_neg (by rw [h]; simp), hl]

theorem gcStep_update (threshold : Int) (st : GcState) (r : GcRelease) (d : Int)
    (h : r.hasMarker = true) (hl : lookA st.lastUpdated r.channel = some d)
    (hlt : d < r.releasedDate) :
    gcStep threshold st r =
      { lastUpdated := updA st.lastUpdated r.channel r.releasedDate
        latest := updA st.latest r.channel r
        alive := if threshold ≤ r.releasedDate then st.alive ++ [r] else st.alive } := by
  rw [gcStep, if_neg (by rw [h]; simp), hl]
  simp only [if_pos hlt]

theorem gcStep_keep (threshold : Int) (st : GcState) (r : GcRelease) (d : Int)
    (h : r.hasMarker = true) (hl : lookA st.lastUpdated r.channel = some d)
    (hlt : ¬d < r.releasedDate) :
    gcStep threshold st r =
      { lastUpdated := st.lastUpdated
        latest := st.latest
        alive := if threshold ≤ r.releasedDate then st.alive ++ [r] else st.alive } := by
  rw [gcStep, if_neg (by rw [h]; simp), hl]
  simp only [if_neg hlt]

/-- Loop invariant of the release loop of `garbage_collect`. -/
def GcInv (threshold : Int) (processed : List GcRelease) (st : GcState) : Prop :=
  (keysOf st.latest).Nodup ∧
  st.alive = processed.filter
    (fun r => r.hasMarker && decide (threshold ≤ r.releasedDate)) ∧
  (∀ ch r, lookA st.latest ch = some r →
    r ∈ processed ∧ r.hasMarker = true ∧ r.channel = ch ∧
    (∀ r2 ∈ processed, r2.hasMarker = true → r2.channel = ch →
      r2.releasedDate ≤ r.releasedDate)) ∧
  (∀ r ∈ processed, r.hasMarker = true →
    ∃ r2, lookA st.latest r.channel = some r2) ∧
  (∀ ch, lookA st.lastUpdated ch = (lookA st.latest ch).map GcRelease.releasedDate)

theorem gcStep_inv (threshold : Int) (processed : List GcRelease) (st : GcState)
    (r : GcRelease) (h : GcInv threshold processed st) :
    GcInv threshold (processed ++ [r]) (gcStep threshold st r) := by
  obtain ⟨hnd, halive, hlatest, hcover, hlink⟩ := h
  by_cases hm : r.hasMarker = false
  · rw [gcStep_skip threshold st r hm]
    refine ⟨hnd, ?_, ?_, ?_, hlink⟩
    · rw [List.filter_append, halive]
      simp [hm]
    · intro ch r2 hl2
      obtain ⟨hmem, hmk, hch, hmax⟩ := hlatest ch r2 hl2
      refine ⟨List.mem_append_left _ hmem, hmk, hch, ?_⟩
      intro r3 h3 hmk3 hch3
      rcases List.mem_append.mp h3 with h3 | h3
      · exact hmax r3 h3 hmk3 hch3
      · simp only [List.mem_singleton] at h3
        subst h3
        rw [hm] at hmk3
        cases hmk3
    · intro r2 h2 hmk2
      rcases List.mem_append.mp h2 with h2 | h2
      · exact hcover r2 h2 hmk2
      · simp only [List.mem_singleton] at h2
        subst h2
        rw [hm] at hmk2
        cases hmk2
  · have hm' : r.hasMarker = true := by revert hm; cases r.hasMarker <;> simp
    have halive2 : (if threshold ≤ r.releasedDate then st.alive ++ [r] else st.alive) =
        (processed ++ [r]).filter
          (fun r => r.hasMarker && decide (threshold ≤ r.releasedDate)) := by
      by_cases hd : threshold ≤ r.releasedDate
      · rw [if_pos hd, List.filter_append, halive]
        simp [hm', hd]
      · rw [if_neg hd, List.filter_append, halive]
        simp [hm', hd]
    cases hlook : lookA st.lastUpdated r.channel with
    | none =>
      rw [gcStep_new threshold st r hm' hlook]
      have hlnone : lookA st.latest r.channel = none := by
        have hl := hlink r.channel
        rw [hlook] at hl
        cases hl2 : lookA st.latest r.channel with
        | none => rfl
        | some rr => rw [hl2] at hl; simp at hl
      have hnone : ∀ r2 ∈ processed, r2.hasMarker = true → r2.channel ≠ r.channel := by
        intro r2 h2 hmk2 heq
        obtain ⟨r3, hr3⟩ := hcover r2 h2 hmk2
        rw [heq, hlnone] at hr3
        cases hr3
      refine ⟨nodup_keysOf_updA _ _ _ hnd, halive2, ?_, ?_, ?_⟩
      · intro ch r2 hl2
        by_cases hch : r.channel = ch
        · subst hch
          rw [lookA_updA_self] at hl2
          injection hl2 with hl2
          subst hl2
          refine ⟨List.mem_append_right _ (List.mem_singleton.mpr rfl), hm', rfl, ?_⟩
          intro r3 h3 hmk3 hch3
          rcases List.mem_append.mp h3 with h3 | h3
          · exact absurd hch3 (hnone r3 h3 hmk3)
          · simp only [List.mem_singleton] at h3
            subst h3
            exact le_refl _
        · rw [lookA_updA_ne _ _ _ _ hch] at hl2
          obtain ⟨hmem, hmk, hch2, hmax⟩ := hlatest ch r2 hl2
          refine ⟨List.mem_append_left _ hmem, hmk, hch2, ?_⟩
          intro r3 h3 hmk3 hch3
          rcases List.mem_append.mp h3 with h3 | h3
          · exact hmax r3 h3 hmk3 hch3
          · simp only [List.mem_singleton] at h3
            subst h3
            exact absurd hch3 hch
      · intro r2 h2 hmk2
        rcases List.mem_append.mp h2 with h2 | h2
        · by_cases hch : r.channel = r2.channel
          · rw [← hch, lookA_updA_self]
            exact ⟨r, rfl⟩
          · rw [lookA_updA_ne _ _ _ _ hch]
            exact hcover r2 h2 hmk2
        · simp only [List.mem_singleton] at h2
          subst h2
          rw [lookA_updA_self]
          exact ⟨_, rfl⟩
      · intro ch
        by_cases hch : r.channel = ch
        · subst hch
          rw [lookA_updA_self, lookA_updA_self]
          rfl
        · rw [lookA_updA_ne _ _ _ _ hch, lookA_updA_ne _ _ _ _ hch]
          exact hlink ch
    | some d =>
      obtain ⟨rOld, hrOld, hdOld⟩ :
          ∃ rOld, lookA st.latest r.channel = some rOld ∧ rOld.releasedDate = d := by
        have hl := hlink r.channel
        rw [hlook] at hl
        cases hl2 : lookA st.latest r.channel with
        | none => rw [hl2] at hl; exact absurd hl (by simp)
        | some rr =>
          rw [hl2] at hl
          simp at hl
          exact ⟨rr, rfl, hl.symm⟩
      obtain ⟨hOldMem, hOldMk, hOldCh, hOldMax⟩ := hlatest r.channel rOld hrOld
      by_cases hlt : d < r.releasedDate
      · rw [gcStep_update threshold st r d hm' hlook hlt]
        refine ⟨nodup_keysOf_updA _ _ _ hnd, halive2, ?_, ?_, ?_⟩
        · intro ch r2 hl2
          by_cases hch : r.channel = ch
          · subst hch
            rw [lookA_updA_self] at hl2
            injection hl2 with hl2
            subst hl2
            refine ⟨List.mem_append_right _ (List.mem_singleton.mpr rfl), hm', rfl, ?_⟩
            intro r3 h3 hmk3 hch3
            rcases List.mem_append.mp h3 with h3 | h3
            · have := hOldMax r3 h3 hmk3 hch3
              omega
            · simp only [List.mem_singleton] at h3
              subst h3
              exact le_refl _
          · rw [lookA_updA_ne _ _ _ _ hch] at hl2
            obtain ⟨hmem, hmk, hch2, hmax⟩ := hlatest ch r2 hl2
            refine ⟨List.mem_append_left _ hmem, hmk, hch2, ?_⟩
            intro r3 h3 hmk3 hch3
            rcases List.mem_append.mp h3 with h3 | h3
            · exact hmax r3 h3 hmk3 hch3
            · simp only [List.mem_singleton] at h3
              subst h3
              exact absurd hch3 hch
        · intro r2 h2 hmk2
          rcases List.mem_append.mp h2 with h2 | h2
          · by_cases hch : r.channel = r2.channel
            · rw [← hch, lookA_updA_self]
              exact ⟨r, rfl⟩
            · rw [lookA_updA_ne _ _ _ _ hch]
              exact hcover r2 h2 hmk2
          · simp only [List.mem_singleton] at h2
            subst h2
            rw [lookA_updA_self]
            exact ⟨_, rfl⟩
        · intro ch
          by_cases hch : r.channel = ch
          · subst hch
            rw [lookA_updA_self, lookA_updA_self]
            rfl
          · rw [lookA_updA_ne _ _ _ _ hch, lookA_updA_ne _ _ _ _ hch]
            exact hlink ch
      · rw [gcStep_keep threshold st r d hm' hlook hlt]
        refine ⟨hnd, halive2, ?_, ?_, hlink⟩
        · intro ch r2 hl2
          obtain ⟨hmem, hmk, hch2, hmax⟩ := hlatest ch r2 hl2
          refine ⟨List.mem_append_left _ hmem, hmk, hch2, ?_⟩
          intro r3 h3 hmk3 hch3
          rcases List.mem_append.mp h3 with h3 | h3
          · exact hmax r3 h3 hmk3 hch3
          · simp only [List.mem_singleton] at h3
            subst h3
            have hr2 : r2 = rOld := by
              rw [← hch3] at hl2
              have hso := hrOld.symm.trans hl2
              injection hso with hh
              exact hh.symm
            rw [hr2, hdOld]
            omega
        · intro r2 h2 hmk2
          rcases List.mem_append.mp h2 with h2 | h2
          · exact hcover r2 h2 hmk2
          · simp only [List.mem_singleton] at h2
            subst h2
            exact ⟨rOld, hrOld⟩

theorem gcFold_inv (threshold : Int) :
    ∀ (rels processed : List GcRelease) (st : GcState),
      GcInv threshold processed st →
      GcInv threshold (processed ++ rels) (rels.foldl (gcStep threshold) st) := by
  intro rels
  induction rels with
  | nil => intro processed st h; simpa using h
  | cons r rest ih =>
    intro processed st h
    have h3 := ih (processed ++ [r]) _ (gcStep_inv threshold processed st r h)
    simpa [List.append_assoc] using h3

theorem gcAlive_inv (threshold : Int) (rels : List GcRelease) :
    GcInv threshold rels (rels.foldl (gcStep threshold) ⟨[], [], []⟩) := by
  have h0 : GcInv threshold [] ⟨[], [], []⟩ := by
    refine ⟨List.nodup_nil, rfl, ?_, ?_, ?_⟩
    · intro ch r hl; simp [lookA] at hl
    · intro r hr; simp at hr
    · intro ch; rfl
  simpa using gcFold_inv threshold rels [] ⟨[], [], []⟩ h0

/-- C4 (confirmed): with `threshold = now - retention_window`, the
retained set computed by `garbage_collect` (whose closures are expanded
and whose artifacts are kept) contains every marker-bearing release at or
after the threshold; everything in it is a marker-bearing release that is
either within the window or of maximal date for its channel; and the
channel's strictly most-recently-released marker-bearing release is
always retained, even when it is older than the window.  (Releases
without the completion marker are ignored entirely, and release
directories themselves are never deleted — only store artifacts outside
the retained closures are.) -/
theorem claim_C4_retention (now window : Int) (rels : List GcRelease) :
    (∀ r ∈ rels, r.hasMarker = true → now - window ≤ r.releasedDate →
      r ∈ gcAlive (now - window) rels) ∧
    (∀ x ∈ gcAlive (now - window) rels, x ∈ rels ∧ x.hasMarker = true ∧
      (now - window ≤ x.releasedDate ∨
        ∀ y ∈ rels, y.hasMarker = true → y.channel = x.channel →
          y.releasedDate ≤ x.releasedDate)) ∧
    (∀ r ∈ rels, r.hasMarker = true →
      (∀ y ∈ rels, y.hasMarker = true → y.channel = r.channel → y ≠ r →
        y.releasedDate < r.releasedDate) →
      r ∈ gcAlive (now - window) rels) := by
  obtain ⟨hnd, halive, hlatest, hcover, hlink⟩ := gcAlive_inv (now - window) rels
  have hgc : gcAlive (now - window) rels =
      (rels.foldl (gcStep (now - window)) ⟨[], [], []⟩).alive ++
      (rels.foldl (gcStep (now - window)) ⟨[], [], []⟩).latest.map Prod.snd := rfl
  refine ⟨?_, ?_, ?_⟩
  · intro r hr hmk hd
    rw [hgc]
    apply List.mem_append_left
    rw [halive]
    refine List.mem_filter.mpr ⟨hr, ?_⟩
    simp [hmk, hd]
  · intro x hx
    rw [hgc] at hx
    rcases List.mem_append.mp hx with hx | hx
    · rw [halive] at hx
      obtain ⟨hmem, hp⟩ := List.mem_filter.mp hx
      simp only [Bool.and_eq_true, decide_eq_true_eq] at hp
      exact ⟨hmem, hp.1, Or.inl hp.2⟩
    · obtain ⟨p, hpmem, hpx⟩ := List.mem_map.mp hx
      obtain ⟨ch, v⟩ := p
      simp only at hpx
      subst hpx
      have hl := lookA_of_mem_nodup _ ch v hnd hpmem
      obtain ⟨hmem, hmk, hch, hmax⟩ := hlatest ch v hl
      subst hch
      exact ⟨hmem, hmk, Or.inr hmax⟩
  · intro r hr hmk hstrict
    obtain ⟨r2, hl⟩ := hcover r hr hmk
    obtain ⟨hmem2, hmk2, hch2, hmax2⟩ := hlatest r.channel r2 hl
    have heq : r2 = r := by
      by_contra hne
      have h1 := hstrict r2 hmem2 hmk2 hch2 hne
      have h2 := hmax2 r hr hmk rfl
      omega
    subst heq
    rw [hgc]
    apply List.mem_append_right
    exact List.mem_map.mpr ⟨(r2.channel, r2), lookA_mem _ _ _ hl, rfl⟩

/-- Two stale releases of one channel (used by the C4 witness). -/
def gcRelsW : List GcRelease :=
  [⟨"nixos-23.11-small", 0, true, "nixos-23.11-small@r1"⟩,
   ⟨"nixos-23.11-small", 5, true, "nixos-23.11-small@r2"⟩]

/-- C4, witness: with `now = 100` and a 30-unit window both releases are
stale, yet the newest one (date 5) is retained. -/
theorem claim_C4_witness :
    GcRelease.mk "nixos-23.11-small" 5 true "nixos-23.11-small@r2" ∈
      gcAlive (100 - 30) gcRelsW :=
  (claim_C4_retention 100 30 gcRelsW).2.2 _ (by decide) rfl (by decide)

/-- Recursion of `parse_narinfo` over `narinfo.splitlines()`:
`key, value = line.split(': ', 1)` raises `ValueError` (modelled as
`Except.error`) on a line with no `': '`; `res[key] = value` overwrites
duplicates. -/
def parseNarinfoGo : List String → List (String × String) → Except Unit (List (String × String))
  | [], acc => .ok acc
  | line :: rest, acc =>
    match splitOnceCS line.data with
    | none => .error ()
    | some (k, v) => parseNarinfoGo rest (updA acc ⟨k⟩ ⟨v⟩)

/-- `parse_narinfo` from the source. -/
def parse_narinfo (lines : List String) : Except Unit (List (String × String)) :=
  parseNarinfoGo lines []

/-- Is an `Except` a success? -/
def exceptIsOk : Except ε α → Bool
  | .ok _ => true
  | .error _ => false

/-- One file of `working_dir/store` as observed by the deletion loop:
its name and (for `.narinfo` records) its text lines. -/
structure StoreRecord where
  fileName : String
  lines : List String
deriving DecidableEq

/-- An `unlink` attempt of the deletion loop; `ok` is the filesystem
outcome, which the bare `try/except: pass` ignores either way. -/
inductive GcDelEvent where
  | unlinkNarinfo (name : String) (ok : Bool)
  | unlinkPayload (url : String) (ok : Bool)
deriving DecidableEq

/-- `path.name.split('.narinfo', 1)[0]`. -/
def stripNarinfoSuffix (name : String) : String :=
  ⟨beforeFirst ".narinfo".data name.data⟩

/-- Is the store file a `.narinfo` record whose hash is outside the
computed closure? -/
def isUnreachableRecord (closure : List String) (sr : StoreRecord) : Bool :=
  strEndsWith ".narinfo" sr.fileName &&
    !closure.contains (stripNarinfoSuffix sr.fileName)

/-- The deletion loop of `garbage_collect` (`for path in store.iterdir()`):
skip non-narinfo files and reachable records; count each unreachable
record; when `DELETE_OLD`, parse its metadata — outside any exception
handler, so a parse failure aborts the whole pass — then unlink the
record and, when the parsed dict has a `URL` key, the payload, each
unlink wrapped in its own bare `try/except: pass` (`unlinkOk` is ignored
by control flow). -/
def gcDeletePhase (deleteOld : Bool) (closure : List String) (unlinkOk : String → Bool) :
    List StoreRecord → Except Unit (Nat × List GcDelEvent)
  | [] => .ok (0, [])
  | sr :: rest =>
    if !strEndsWith ".narinfo" sr.fileName then
      gcDeletePhase deleteOld closure unlinkOk rest
    else if closure.contains (stripNarinfoSuffix sr.fileName) then
      gcDeletePhase deleteOld closure unlinkOk rest
    else
      if deleteOld then
        match parse_narinfo sr.lines with
        | .error _ => .error ()
        | .ok info =>
          let evs := GcDelEvent.unlinkNarinfo sr.fileName (unlinkOk sr.fileName) ::
            (match lookA info "URL" with
             | some url => [GcDelEvent.unlinkPayload url (unlinkOk url)]
             | none => [])
          (gcDeletePhase deleteOld closure unlinkOk rest).map
            (fun p => (p.1 + 1, evs ++ p.2))
      else
        (gcDeletePhase deleteOld closure unlinkOk rest).map (fun p => (p.1 + 1, p.2))

/-- The number of unreachable records (the loop's `deleted` counter). -/
def countUnreachable (closure : List String) (srs : List StoreRecord) : Nat :=
  (srs.filter (isUnreachableRecord closure)).length

/-- The unlink attempts made for one (parseable) unreachable record. -/
def recordDelEvents (unlinkOk : String → Bool) (sr : StoreRecord) : List GcDelEvent :=
  match parse_narinfo sr.lines with
  | .error _ => []
  | .ok info =>
    GcDelEvent.unlinkNarinfo sr.fileName (unlinkOk sr.fileName) ::
      (match lookA info "URL" with
       | some url => [GcDelEvent.unlinkPayload url (unlinkOk url)]
       | none => [])

/-- C8 (amended): the deletion loop never lets an `unlink` failure
escape — its result does not depend on the unlink outcomes at all — and
with deletion disabled it only counts unreachable records; but it is not
failure-proof as the claim states: the metadata parse runs outside any
exception handler, so when every unreachable record parses the pass
succeeds (deleting record and payload per record), while a single
malformed record aborts the whole pass (see the counterexample). -/
theorem claim_C8_amended (closure : List String) (unlinkOk : String → Bool) :
    ∀ srs : List StoreRecord,
      (∀ sr ∈ srs, isUnreachableRecord closure sr = true →
        exceptIsOk (parse_narinfo sr.lines) = true) →
      gcDeletePhase false closure unlinkOk srs =
        .ok (countUnreachable closure srs, []) ∧
      gcDeletePhase true closure unlinkOk srs =
        .ok (countUnreachable closure srs,
          ((srs.filter (isUnreachableRecord closure)).map
            (recordDelEvents unlinkOk)).flatten) := by
  intro srs
  induction srs with
  | nil => intro _; exact ⟨rfl, rfl⟩
  | cons sr rest ih =>
    intro hp
    obtain ⟨ih1, ih2⟩ := ih (fun s hs hu => hp s (List.mem_cons_of_mem _ hs) hu)
    cases h1 : strEndsWith ".narinfo" sr.fileName with
    | false =>
      have hu : isUnreachableRecord closure sr = false := by
        simp only [isUnreachableRecord, h1, Bool.false_and]
      constructor
      · simp only [gcDeletePhase, h1, Bool.not_false, if_true, ih1, countUnreachable,
          List.filter_cons, hu, Bool.false_eq_true, if_false]
      · simp only [gcDeletePhase, h1, Bool.not_false, if_true, ih2, countUnreachable,
          List.filter_cons, hu, Bool.false_eq_true, if_false]
    | true =>
      cases h2 : closure.contains (stripNarinfoSuffix sr.fileName) with
      | true =>
        have hu : isUnreachableRecord closure sr = false := by
          simp only [isUnreachableRecord, h1, h2, Bool.not_true, Bool.and_false]
        constructor
        · simp only [gcDeletePhase, h1, h2, Bool.not_true, Bool.false_eq_true, if_false,
            if_true, ih1, countUnreachable, List.filter_cons, hu]
        · simp only [gcDeletePhase, h1, h2, Bool.not_true, Bool.false_eq_true, if_false,
            if_true, ih2, countUnreachable, List.filter_cons, hu]
      | false =>
        have hu : isUnreachableRecord closure sr = true := by
          simp only [isUnreachableRecord, h1, h2, Bool.not_false, Bool.and_true]
        have hpok := hp sr (List.mem_cons_self _ _) hu
        constructor
        · simp only [gcDeletePhase, h1, h2, Bool.not_true, Bool.false_eq_true, if_false,
            ih1, countUnreachable, List.filter_cons, hu, if_true, Except.map,
            List.length_cons]
        · cases hpn : parse_narinfo sr.lines with
          | error e => rw [hpn] at hpok; simp [exceptIsOk] at hpok
          | ok info =>
            simp only [gcDeletePhase, h1, h2, Bool.not_true, Bool.false_eq_true, if_false,
              if_true, hpn, ih2, countUnreachable, List.filter_cons, hu, Except.map,
              List.length_cons, List.map_cons, List.flatten_cons, recordDelEvents]

/-- C8, counterexample.  The claim says garbage collection never fails
the overall process.  With deletion enabled, a single unreachable record
whose metadata has a line without `': '` makes `parse_narinfo` raise
`ValueError` outside any handler, aborting the whole collection pass
(and, since `garbage_collect()` is called outside the `try` of
`__main__`, the process). -/
theorem claim_C8_counterexample :
    gcDeletePhase true [] (fun _ => true) [⟨"x.narinfo", ["garbage"]⟩] = .error () := by
  rfl

/-- C8, witness: over one parseable unreachable record, the dry-run mode
only counts, and the deletion mode attempts both unlinks even though
both unlinks fail (`unlinkOk` constantly false) — the failures are
swallowed and the pass still succeeds. -/
theorem claim_C8_witness :
    gcDeletePhase false [] (fun _ => false)
      [⟨"a.narinfo", ["StorePath: /nix/store/abc-pkg", "URL: nar/abc.nar.xz"]⟩] =
      .ok (1, []) ∧
    gcDeletePhase true [] (fun _ => false)
      [⟨"a.narinfo", ["StorePath: /nix/store/abc-pkg", "URL: nar/abc.nar.xz"]⟩] =
      .ok (1, [.unlinkNarinfo "a.narinfo" false, .unlinkPayload "nar/abc.nar.xz" false]) :=
  claim_C8_amended [] (fun _ => false)
    [⟨"a.narinfo", ["StorePath: /nix/store/abc-pkg", "URL: nar/abc.nar.xz"]⟩]
    (by decide)
